import Mathlib

/-!
# Matcher_Regions_AllInMemory: putative matching of an image collection

A shallow embedding of `openMVG/matching_image_collection/Matcher_Regions_AllInMemory.hpp`.

* `float`/`double` values (descriptor components, distances, the distance ratio) are
  represented by exact rationals.
* A `std::map` is the list of its entries in increasing key order.
* A C++ exception (`std::map::at` on a missing key) or an out-of-range read of a
  `std::vector` is the result `none`.
* The loop over the images paired with one anchor is the sequential loop of the build
  without OpenMP.
* The descriptor buffer of a set is the list of its scalars; the `reinterpret_cast` of the
  buffer to `MatcherT::ScalarT` is taken as the identity, which is exact for a set whose
  scalar type is the one of the matcher (see `UniformLayout`).
-/

namespace openMVG

/-- Values of the C++ types `float` and `double`. -/
abbrev Scalar := ℚ

/-! ## std::map -/

/-- A `std::map<κ, ν>`: its entries, listed in increasing key order. -/
abbrev StdMap (κ : Type) (ν : Type) := List (κ × ν)

namespace StdMap

variable {κ ν : Type}

/-- The keys in iteration order. -/
def keys (m : StdMap κ ν) : List κ := m.map Prod.fst

/-- The invariant of a `std::map`: strictly increasing keys. -/
def Ordered [LinearOrder κ] (m : StdMap κ ν) : Prop := (keys m).Pairwise (· < ·)

/-- The number of entries, `std::map::size`. -/
def size (m : StdMap κ ν) : Nat := m.length

/-- The mapped value of `std::map::find`; `std::map::at` throws where this is `none`. -/
def find [LinearOrder κ] : StdMap κ ν → κ → Option ν
  | [], _ => none
  | (k', v) :: rest, k => if k' = k then some v else find rest k

/-- Replace the value `v` mapped to `k` by `f (some v)`, or create the entry `(k, f none)`
at its place in the key order when `k` is absent. -/
def alter [LinearOrder κ] (f : Option ν → ν) (k : κ) : StdMap κ ν → StdMap κ ν
  | [] => [(k, f none)]
  | (k', v) :: rest =>
    if k < k' then (k, f none) :: (k', v) :: rest
    else if k = k' then (k', f (some v)) :: rest
    else (k', v) :: alter f k rest

/-- The call `std::map::insert(make_pair(k, v))`: adds the entry unless the key is already present,
in which case the map is left as it is. -/
def insert [LinearOrder κ] (k : κ) (v : ν) (m : StdMap κ ν) : StdMap κ ν :=
  alter (fun old => old.getD v) k m

/-- The statement `m[k].push_back(x)` on a `std::map<κ, std::vector<ν>>`: `operator[]`
creates an empty vector when the key is absent. -/
def push_back_at [LinearOrder κ] (k : κ) (x : ν) (m : StdMap κ (List ν)) :
    StdMap κ (List ν) :=
  alter (fun old => old.getD [] ++ [x]) k m

end StdMap

/-! ## Data model -/

/-- The matcher requested at construction time. -/
inductive EMatcherType
  | BRUTE_FORCE_L2
  | ANN_L2
  | BRUTE_FORCE_HAMMING
  deriving DecidableEq

/-- The class `PointFeature`: the image position of a region. -/
structure PointFeature where
  x : Scalar
  y : Scalar
  deriving DecidableEq

/-- Modelled from the spec: the kind of a descriptor set, "fixed kind {dense, binary}";
the class `features::Regions` is not in src/. -/
inductive DescriptorKind
  | dense
  | binary
  deriving DecidableEq

/-- The scalar type named by `Regions::Type_id()`; `other n` stands for any type name
different from those of `unsigned char`, `float` and `double`. -/
inductive ScalarType
  | unsigned_char
  | float
  | double
  | other (n : Nat)
  deriving DecidableEq

/-- Modelled from the spec: what the interface `features::Regions` (not in src/) answers for
one image: kind, scalar type, region count, descriptor length, the descriptor data seen as an
array of scalars, and the region positions. -/
structure Regions where
  kind : DescriptorKind
  Type_id : ScalarType
  RegionCount : Nat
  DescriptorLength : Nat
  DescriptorRawData : List Scalar
  GetRegionsPositions : List PointFeature

/-- The answer of `Regions::IsScalar()`. -/
def Regions.IsScalar (r : Regions) : Bool := decide (r.kind = DescriptorKind.dense)

/-- The answer of `Regions::IsBinary()`. -/
def Regions.IsBinary (r : Regions) : Bool := decide (r.kind = DescriptorKind.binary)

/-- The class `IndMatch`: a correspondence, index `_i` in the anchor image and `_j` in the other. -/
structure IndMatch where
  _i : Nat
  _j : Nat
  deriving DecidableEq

/-- The type `Pair_Set`: the `std::set<Pair>` of image pairs, in iteration order. -/
abbrev Pair_Set := List (Nat × Nat)

/-- The type `PairWiseMatches`: `std::map<Pair, std::vector<IndMatch>>`, keys in
lexicographic order. -/
abbrev PairWiseMatches := StdMap (Nat ×ₗ Nat) (List IndMatch)

/-! ## Nearest-neighbour search backends -/

/-- The capabilities `Match<MatcherT>` uses of its template parameter: `Index` is the state
of a matcher object after `Build(tab, nbRows, dimension)`, and
`SearchNeighbours(query, nbQuery, &indices, &distances, NN)` gives the two output vectors. -/
structure MatcherT where
  Index : Type
  Build : List Scalar → Nat → Nat → Index
  SearchNeighbours : Index → List Scalar → Nat → Nat → List Nat × List Scalar

/-- The metric types named by the typedefs of `Match`, with their scalar type. -/
inductive MetricT
  | L2_Vectorized (T : ScalarType)
  | flann_L2 (T : ScalarType)
  | Hamming (T : ScalarType)
  deriving DecidableEq

/-- The two matcher templates of `matcher_brute_force.hpp` and `matcher_kdtree_flann.hpp`
(not in src/), as functions of their template arguments. -/
structure MatcherLib where
  ArrayMatcherBruteForce : ScalarType → MetricT → MatcherT
  ArrayMatcher_Kdtree_Flann : ScalarType → MetricT → MatcherT

/-- Modelled from the spec: the squared-L2 metric policy, "L2 implemented as squared
Euclidean distance"; the metric classes are not in src/. -/
def squaredL2 (a b : List Scalar) : Scalar :=
  ((a.zip b).map (fun p => (p.1 - p.2) * (p.1 - p.2))).sum

/-- Modelled from the spec: the Hamming metric policy, "bit-mismatch count between two binary
descriptors", over descriptors packed in bytes. -/
def hamming (a b : List Scalar) : Scalar :=
  (((a.zip b).map (fun p =>
    (List.range 8).countP
      (fun bit => p.1.num.toNat.testBit bit != p.2.num.toNat.testBit bit))).sum : Nat)

/-- The distance computed by a metric type. -/
def MetricT.distance : MetricT → List Scalar → List Scalar → Scalar
  | MetricT.L2_Vectorized _ => squaredL2
  | MetricT.flann_L2 _ => squaredL2
  | MetricT.Hamming _ => hamming

/-- Row `r` of an array of descriptors of dimension `dim`, as the matchers read it. -/
def descriptorRow (tab : List Scalar) (dim r : Nat) : List Scalar :=
  (tab.drop (r * dim)).take dim

/-- The `count` rows of an array of descriptors of dimension `dim`. -/
def descriptorRows (tab : List Scalar) (count dim : Nat) : List (List Scalar) :=
  (List.range count).map (descriptorRow tab dim)

/-- The ingested vectors of a built brute-force index. -/
structure BruteForceIndex where
  rows : List (List Scalar)
  dimension : Nat

/-- Modelled from the spec: `queryKNearest(query, k)` of the brute-force variant, "computes
the metric against every ingested vector", and returns "the k closest ingested vectors by the
configured metric, as parallel sequences of (index, distance) sorted by ascending distance",
ties by ingestion index, and "as many as available" when fewer than `k` were ingested. -/
def queryKNearest (metric : List Scalar → List Scalar → Scalar) (ix : BruteForceIndex)
    (query : List Scalar) (k : Nat) : List (Nat × Scalar) :=
  ((ix.rows.enum.map (fun e => (e.1, metric e.2 query))).insertionSort
    (fun a b => a.2 ≤ b.2)).take k

/-- Modelled from the spec: one query's block of `NN` slots in the output vectors of the
brute-force backend. The query "returns as many as available": the neighbours found come
first, and the slots that remain when fewer than `NN` vectors were ingested keep the value 0
of a freshly sized vector, so that "an anchor with <2 descriptors yields no correspondences
through that anchor". -/
def neighbourBlock (found : List (Nat × Scalar)) (NN : Nat) : List (Nat × Scalar) :=
  found ++ List.replicate (NN - found.length) (0, 0)

/-- Modelled from the spec: the brute-force Index Backend (`ArrayMatcherBruteForce`, not in
src/). `build` "fails if count == 0", and a matcher that was not built finds nothing. The
caller reads the result of query `q` at offset `q * NN` of the output vectors, so each query
owns `NN` consecutive slots. -/
def bruteForceMatcher (metric : List Scalar → List Scalar → Scalar) : MatcherT where
  Index := Option BruteForceIndex
  Build := fun tab nbRows dimension =>
    if nbRows = 0 then none
    else some { rows := descriptorRows tab nbRows dimension, dimension := dimension }
  SearchNeighbours := fun index query nbQuery NN =>
    match index with
    | none => ([], [])
    | some ix =>
      let blocks := (descriptorRows query nbQuery ix.dimension).map
        (fun q => neighbourBlock (queryKNearest metric ix q NN) NN)
      (blocks.flatten.map Prod.fst, blocks.flatten.map Prod.snd)

/-- Modelled from the spec: the backends with exact search. The tree-based variant
(`ArrayMatcher_Kdtree_Flann`, a wrapper of the third-party FLANN) is taken in its exact
mode, "ascending distance for ties broken by ingestion index", where it returns what the
linear scan returns. -/
def exactBackends : MatcherLib where
  ArrayMatcherBruteForce := fun _ metric => bruteForceMatcher metric.distance
  ArrayMatcher_Kdtree_Flann := fun _ metric => bruteForceMatcher metric.distance

/-! ## Filters -/

/-- Modelled from the spec: `Square` (numeric.hpp, not in src/), the threshold "pre-squared
once". -/
def Square (x : Scalar) : Scalar := x * x

/-- Modelled from the spec: `NNdistanceRatio` (matching_filters.hpp, not in src/). The
distances come in groups of `NN` per query, nearest first; the output lists, in increasing
order, the queries whose two nearest distances satisfy `distance₀ < τ · distance₁`, "strict
inequality". -/
def NNdistanceRatio (distances : List Scalar) (NN : Nat) (fratio : Scalar) : List Nat :=
  (List.range (distances.length / NN)).filter (fun i =>
    match distances[i * NN]?, distances[i * NN + 1]? with
    | some d0, some d1 => decide (d0 < fratio * d1)
    | _, _ => false)

/-- Modelled from the spec: one pass of the Deduplicator, "keep one, drop the rest". The
elements kept are those that are not `same` as an element kept before them (`kept` holds
the elements already kept), in their order. -/
def dropDuplicates {α : Type} (same : α → α → Bool) : List α → List α → List α
  | _, [] => []
  | kept, x :: xs =>
    if kept.any (fun y => same y x) then dropDuplicates same kept xs
    else x :: dropDuplicates same (x :: kept) xs

/-- Modelled from the spec: `IndMatch::getDeduplicated` (not in src/), the index-pair dedup:
"if two Correspondences share the same (anchorLocalIndex, foreignLocalIndex), keep one
arbitrary survivor, drop the rest". The survivor is the first one. -/
def IndMatch.getDeduplicated (vec_match : List IndMatch) : List IndMatch :=
  dropDuplicates (fun a b => decide (a = b)) [] vec_match

/-- Modelled from the spec: the test of the coordinate dedup, two correspondences "whose
anchor-side positions are pixel-identical AND whose foreign-side positions are
pixel-identical". A correspondence whose index has no position coincides with none. -/
def samePosition (pointFeaturesI pointFeaturesJ : List PointFeature) (a b : IndMatch) : Bool :=
  match pointFeaturesI[a._i]?, pointFeaturesI[b._i]?, pointFeaturesJ[a._j]?,
      pointFeaturesJ[b._j]? with
  | some pa, some pb, some qa, some qb => decide (pa = pb) && decide (qa = qb)
  | _, _, _, _ => false

/-- Modelled from the spec: `IndMatchDecorator<float>::getDeduplicated` (not in src/), the
coordinate dedup: "if two Correspondences map to descriptors whose anchor-side positions are
pixel-identical AND whose foreign-side positions are pixel-identical, keep one, drop the
rest". The survivor is the first one. -/
def IndMatchDecorator.getDeduplicated (pointFeaturesI pointFeaturesJ : List PointFeature)
    (vec_matches : List IndMatch) : List IndMatch :=
  dropDuplicates (samePosition pointFeaturesI pointFeaturesJ) [] vec_matches

/-! ## The matcher object and its two `Match` member functions -/

/-- The data members of `Matcher_Regions_AllInMemory`. -/
structure Matcher_Regions_AllInMemory where
  regions_perImage : StdMap Nat Regions
  fDistRatio : Scalar
  _eMatcherType : EMatcherType

/-- The calls made to a matcher object and to the ratio filter, as a call counter sees
them: `Build` on the index of anchor `I`, `SearchNeighbours` on the index of anchor `I`
with the descriptors of image `J`, `NNdistanceRatio` for the pair with its threshold. -/
inductive Call
  | Build (I : Nat)
  | SearchNeighbours (I J : Nat)
  | NNdistanceRatio (I J : Nat) (fratio : Scalar)
  deriving DecidableEq

/-- What a call to `Match` can change besides `fDistRatio`: the table passed by reference,
and the record of the calls made so far. -/
structure MatchState where
  map_PutativesMatches : PairWiseMatches
  calls : List Call

/-- The constant of `const size_t NNN__ = 2;`. -/
def NNN__ : Nat := 2

/-- The loop of lines 249-254: one `IndMatch(vec_nIndice10[index*NNN__], index)` for each
index kept by the ratio filter. -/
def filteredMatches (vec_nIndice10 : List Nat) : List Nat → Option (List IndMatch)
  | [] => some []
  | index :: rest =>
    match vec_nIndice10[index * NNN__]? with
    | none => none
    | some i =>
      match filteredMatches vec_nIndice10 rest with
      | none => none
      | some vec_FilteredMatches => some (IndMatch.mk i index :: vec_FilteredMatches)

/-- Lines 230-262 of `Match<MatcherT>`: the correspondences of the image of `regionsJ` with
the anchor whose index `matcher10` and positions `pointFeaturesI` are given. -/
def putativeMatches (M : MatcherT) ( fDistRatio : Scalar) (matcher10 : M.Index)
    (pointFeaturesI : List PointFeature) (regionsJ : Regions) : Option (List IndMatch) :=
  let regions_countJ := regionsJ.RegionCount
  let tabJ := regionsJ.DescriptorRawData
  let found := M.SearchNeighbours matcher10 tabJ regions_countJ NNN__
  let vec_nIndice10 := found.1
  let vec_fDistance10 := found.2
  let vec_NNRatioIndexes := NNdistanceRatio vec_fDistance10 NNN__ fDistRatio
  match filteredMatches vec_nIndice10 vec_NNRatioIndexes with
  | none => none
  | some vec_FilteredMatches =>
    let pointFeaturesJ := regionsJ.GetRegionsPositions
    some (IndMatchDecorator.getDeduplicated pointFeaturesI pointFeaturesJ
      (IndMatch.getDeduplicated vec_FilteredMatches))

/-- The loop of lines 225-271 over `indexToCompare`, the images paired with anchor `I`. -/
def matchForeign (M : MatcherT) (regions_perImage : StdMap Nat Regions) ( fDistRatio : Scalar)
    (I : Nat) (matcher10 : M.Index) (pointFeaturesI : List PointFeature) :
    List Nat → MatchState → Option MatchState
  | [], st => some st
  | J :: rest, st =>
    match StdMap.find regions_perImage J with
    | none => none
    | some regionsJ =>
      match putativeMatches M fDistRatio matcher10 pointFeaturesI regionsJ with
      | none => none
      | some vec_FilteredMatches =>
        matchForeign M regions_perImage fDistRatio I matcher10 pointFeaturesI rest
          { map_PutativesMatches :=
              StdMap.insert (toLex (I, J)) vec_FilteredMatches st.map_PutativesMatches
            calls := st.calls ++ [Call.SearchNeighbours I J, Call.NNdistanceRatio I J fDistRatio] }

/-- The loop of lines 207-272 over the entries of `map_Pairs`. -/
def matchAnchors (M : MatcherT) (regions_perImage : StdMap Nat Regions) ( fDistRatio : Scalar) :
    StdMap Nat (List Nat) → MatchState → Option MatchState
  | [], st => some st
  | (I, indexToCompare) :: rest, st =>
    match StdMap.find regions_perImage I with
    | none => none
    | some regionsI =>
      let regions_countI := regionsI.RegionCount
      let pointFeaturesI := regionsI.GetRegionsPositions
      let tabI := regionsI.DescriptorRawData
      let matcher10 := M.Build tabI regions_countI regionsI.DescriptorLength
      match matchForeign M regions_perImage fDistRatio I matcher10 pointFeaturesI indexToCompare
          { st with calls := st.calls ++ [Call.Build I] } with
      | none => none
      | some st' => matchAnchors M regions_perImage fDistRatio rest st'

/-- Lines 198-204: `map_Pairs`, the pairs sorted according to their first index. -/
def map_Pairs (pairs : Pair_Set) : StdMap Nat (List Nat) :=
  pairs.foldl (fun m iter => StdMap.push_back_at iter.1 iter.2 m) []

namespace Matcher_Regions_AllInMemory

/-- The member function template `Match<MatcherT>`. -/
def Match_MatcherT (M : MatcherT) (self : Matcher_Regions_AllInMemory) (pairs : Pair_Set)
    (st : MatchState) : Option MatchState :=
  matchAnchors M self.regions_perImage self.fDistRatio (map_Pairs pairs) st

/-- The object after `fDistRatio = Square(fDistRatio);` (the member is `mutable`). -/
def squareRatio (self : Matcher_Regions_AllInMemory) : Matcher_Regions_AllInMemory :=
  { self with fDistRatio := Square self.fDistRatio }

/-- The statement `return Match<MatcherT>(vec_fileNames, pairs, map_PutativesMatches);` on
the object `self`: the object is returned along with the state the call leaves. -/
def callMatch (M : MatcherT) (self : Matcher_Regions_AllInMemory) (pairs : Pair_Set)
    (st : MatchState) : Option (Matcher_Regions_AllInMemory × MatchState) :=
  (Match_MatcherT M self pairs st).map (fun st' => (self, st'))

/-- The member function `Match`: the object and the state it leaves, `none` when it
throws. -/
def Match (lib : MatcherLib) (self : Matcher_Regions_AllInMemory) (pairs : Pair_Set)
    (st : MatchState) : Option (Matcher_Regions_AllInMemory × MatchState) :=
  if StdMap.size self.regions_perImage < 2 then some (self, st)
  else
    match self.regions_perImage with
    | [] => some (self, st)
    | (_, regions) :: _ =>
      if regions.IsScalar && decide (self._eMatcherType = EMatcherType.BRUTE_FORCE_HAMMING) then
        some (self, st)
      else if regions.IsBinary &&
          decide (self._eMatcherType ≠ EMatcherType.BRUTE_FORCE_HAMMING) then
        some (self, st)
      else if regions.IsScalar then
        if regions.Type_id = ScalarType.unsigned_char then
          match self._eMatcherType with
          | EMatcherType.BRUTE_FORCE_L2 =>
            callMatch (lib.ArrayMatcherBruteForce ScalarType.unsigned_char
              (MetricT.L2_Vectorized ScalarType.unsigned_char)) (squareRatio self) pairs st
          | EMatcherType.ANN_L2 =>
            callMatch (lib.ArrayMatcher_Kdtree_Flann ScalarType.unsigned_char
              (MetricT.flann_L2 ScalarType.unsigned_char)) (squareRatio self) pairs st
          | EMatcherType.BRUTE_FORCE_HAMMING => some (self, st)
        else if regions.Type_id = ScalarType.float then
          match self._eMatcherType with
          | EMatcherType.BRUTE_FORCE_L2 =>
            callMatch (lib.ArrayMatcherBruteForce ScalarType.float
              (MetricT.L2_Vectorized ScalarType.float)) (squareRatio self) pairs st
          | EMatcherType.ANN_L2 =>
            callMatch (lib.ArrayMatcher_Kdtree_Flann ScalarType.float
              (MetricT.flann_L2 ScalarType.float)) (squareRatio self) pairs st
          | EMatcherType.BRUTE_FORCE_HAMMING => some (self, st)
        else if regions.Type_id = ScalarType.double then
          match self._eMatcherType with
          | EMatcherType.BRUTE_FORCE_L2 =>
            callMatch (lib.ArrayMatcherBruteForce ScalarType.double
              (MetricT.L2_Vectorized ScalarType.double)) (squareRatio self) pairs st
          | EMatcherType.ANN_L2 =>
            callMatch (lib.ArrayMatcher_Kdtree_Flann ScalarType.double
              (MetricT.flann_L2 ScalarType.double)) (squareRatio self) pairs st
          | EMatcherType.BRUTE_FORCE_HAMMING => some (self, st)
        else some (self, st)
      else if regions.IsBinary && decide (regions.Type_id = ScalarType.unsigned_char) then
        match self._eMatcherType with
        | EMatcherType.BRUTE_FORCE_HAMMING =>
          callMatch (lib.ArrayMatcherBruteForce ScalarType.unsigned_char
            (MetricT.Hamming ScalarType.unsigned_char)) self pairs st
        | _ => some (self, st)
      else some (self, st)

end Matcher_Regions_AllInMemory

/-! ## Notions used to state the properties -/

/-- Every image index named by a pair is a key of `regions_perImage`, so that
`regions_perImage.at` does not throw. -/
def pairsLoaded (regions_perImage : StdMap Nat Regions) (pairs : Pair_Set) : Bool :=
  pairs.all (fun p =>
    (StdMap.find regions_perImage p.1).isSome && (StdMap.find regions_perImage p.2).isSome)

/-- The two output vectors of `SearchNeighbours` are parallel: one index per distance. -/
def ParallelOutputs (M : MatcherT) : Prop :=
  ∀ (ix : M.Index) (query : List Scalar) (nbQuery NN : Nat),
    (M.SearchNeighbours ix query nbQuery NN).1.length =
      (M.SearchNeighbours ix query nbQuery NN).2.length

/-- The pipeline of the Parallel Pair Executor run on the single pair `(A, F)` alone: the
index of `A` is built for this pair, queried with the descriptors of `F`, and the survivors
of the ratio test are deduplicated. -/
def singlePairMatches (M : MatcherT) (regions_perImage : StdMap Nat Regions)
    ( fDistRatio : Scalar) (A F : Nat) : Option (List IndMatch) :=
  match StdMap.find regions_perImage A with
  | none => none
  | some regionsA =>
    match StdMap.find regions_perImage F with
    | none => none
    | some regionsF =>
      putativeMatches M fDistRatio
        (M.Build regionsA.DescriptorRawData regionsA.RegionCount regionsA.DescriptorLength)
        regionsA.GetRegionsPositions regionsF

/-- The naively-ordered execution: the pairs are taken one by one, in the order given, each
with an index built for it alone, and its list is published under its key. -/
def matchNaive (M : MatcherT) (regions_perImage : StdMap Nat Regions) ( fDistRatio : Scalar) :
    List (Nat × Nat) → PairWiseMatches → Option PairWiseMatches
  | [], table => some table
  | (A, F) :: rest, table =>
    match singlePairMatches M regions_perImage fDistRatio A F with
    | none => none
    | some found =>
      matchNaive M regions_perImage fDistRatio rest (StdMap.insert (toLex (A, F)) found table)

/-- The pairs of a grouping by anchor, in processing order. -/
def groupedPairs (groups : StdMap Nat (List Nat)) : List (Nat × Nat) :=
  groups.flatMap (fun g => g.2.map (fun J => (g.1, J)))

/-- The images paired with anchor `A` in a pair set, in iteration order. -/
def foreignImages (pairs : Pair_Set) (A : Nat) : List Nat :=
  (pairs.filter (fun p => decide (p.1 = A))).map Prod.snd

/-- The calls made while processing a grouping by anchor: for each anchor one `Build`, then
for each image paired with it one `SearchNeighbours` and one `NNdistanceRatio`. -/
def groupCalls ( fDistRatio : Scalar) (groups : StdMap Nat (List Nat)) : List Call :=
  groups.flatMap (fun g => Call.Build g.1 ::
    g.2.flatMap (fun J => [Call.SearchNeighbours g.1 J, Call.NNdistanceRatio g.1 J fDistRatio]))

/-- Publishing, in order, the list `val A F` under the key of each pair `(A, F)`. -/
def publishAll (val : Nat → Nat → List IndMatch) (pairs : List (Nat × Nat))
    (table : PairWiseMatches) : PairWiseMatches :=
  pairs.foldl (fun t p => StdMap.insert (toLex p) (val p.1 p.2) t) table

/-- The survivors of the ratio test on the output vectors of a 2-nearest-neighbour search:
for each query `k` in increasing order whose two distances pass the test, the
correspondence (index of the nearest neighbour, `k`). -/
def ratioTestSurvivors (indices : List Nat) (distances : List Scalar) (τ : Scalar) :
    List IndMatch :=
  ((List.range (distances.length / 2)).filter
    (fun k => decide (distances.getD (2 * k) 0 < τ * distances.getD (2 * k + 1) 0))).map
    (fun k => IndMatch.mk (indices.getD (2 * k) 0) k)

/-- The two passes of the Deduplicator, index-pair dedup then coordinate dedup, as `Match`
applies them to the correspondences of a pair. -/
def dedup (pointFeaturesI pointFeaturesJ : List PointFeature) (l : List IndMatch) :
    List IndMatch :=
  IndMatchDecorator.getDeduplicated pointFeaturesI pointFeaturesJ (IndMatch.getDeduplicated l)

/-- The combinations for which `Match` reaches a call of `Match<MatcherT>`: a dense set of
scalar type `unsigned char`, `float` or `double` with an L2 backend, or a binary set of
`unsigned char` with the Hamming backend. -/
def compatible (regions : Regions) (eMatcherType : EMatcherType) : Bool :=
  (regions.IsScalar &&
      (decide (regions.Type_id = ScalarType.unsigned_char) ||
        decide (regions.Type_id = ScalarType.float) ||
        decide (regions.Type_id = ScalarType.double)) &&
      decide (eMatcherType ≠ EMatcherType.BRUTE_FORCE_HAMMING)) ||
    (regions.IsBinary && decide (regions.Type_id = ScalarType.unsigned_char) &&
      decide (eMatcherType = EMatcherType.BRUTE_FORCE_HAMMING))

/-- The matcher type `MatcherT` of the typedefs in the branch of `Match` taken for scalar
type `T` and the requested backend. -/
def selectedMatcher (lib : MatcherLib) (T : ScalarType) : EMatcherType → MatcherT
  | EMatcherType.BRUTE_FORCE_L2 => lib.ArrayMatcherBruteForce T (MetricT.L2_Vectorized T)
  | EMatcherType.ANN_L2 => lib.ArrayMatcher_Kdtree_Flann T (MetricT.flann_L2 T)
  | EMatcherType.BRUTE_FORCE_HAMMING =>
    lib.ArrayMatcherBruteForce ScalarType.unsigned_char (MetricT.Hamming ScalarType.unsigned_char)

/-- The object on which `Match<MatcherT>` is called: with the ratio squared in the L2
branches, as it is in the Hamming branch. -/
def dispatchedObject (self : Matcher_Regions_AllInMemory) : Matcher_Regions_AllInMemory :=
  match self._eMatcherType with
  | EMatcherType.BRUTE_FORCE_HAMMING => self
  | _ => Matcher_Regions_AllInMemory.squareRatio self

/-- Every matcher of the library gives parallel output vectors. -/
def MatcherLib.Parallel (lib : MatcherLib) : Prop :=
  ∀ (T : ScalarType) (metric : MetricT),
    ParallelOutputs (lib.ArrayMatcherBruteForce T metric) ∧
      ParallelOutputs (lib.ArrayMatcher_Kdtree_Flann T metric)

/-- Some two descriptor sets of the collection differ in scalar type or in kind. -/
def MixedTypes (regions_perImage : StdMap Nat Regions) : Prop :=
  ∃ e1 ∈ regions_perImage, ∃ e2 ∈ regions_perImage,
    e1.2.Type_id ≠ e2.2.Type_id ∨ e1.2.kind ≠ e2.2.kind

/-- Every descriptor set of the collection holds scalars of the type `T`, in descriptors of
`D` scalars, and its buffer holds exactly its `RegionCount` descriptors. A matcher over the
scalar type `T` with descriptors of dimension `D` then reads the buffer of each set as what
it holds, within its bounds: the `reinterpret_cast` of lines 215-216 and 231-232 to
`MatcherT::ScalarT` changes nothing. -/
def UniformLayout (regions_perImage : StdMap Nat Regions) (T : ScalarType) (D : Nat) : Prop :=
  ∀ e ∈ regions_perImage,
    e.2.Type_id = T ∧ e.2.DescriptorLength = D ∧
      e.2.DescriptorRawData.length = e.2.RegionCount * D

/-- A reordering of a grouping by anchor: the foreign images of each anchor are permuted,
then the anchors are permuted. -/
def Reordered (groups groups' : StdMap Nat (List Nat)) : Prop :=
  ∃ mid : StdMap Nat (List Nat),
    List.Forall₂ (fun g g' => g'.1 = g.1 ∧ g'.2.Perm g.2) groups mid ∧ groups'.Perm mid

/-- Whether a call is a `SearchNeighbours` on the index of anchor `A`. -/
def Call.isSearchOn (A : Nat) : Call → Bool
  | Call.SearchNeighbours I _ => decide (I = A)
  | _ => false

/-! ## Example data -/

/-- Image `A` of the end-to-end example: two dense `float` descriptors of dimension 1,
`a0 = (1)` and `a1 = (2)`. -/
def exampleA : Regions :=
  { kind := DescriptorKind.dense, Type_id := ScalarType.float, RegionCount := 2,
    DescriptorLength := 1, DescriptorRawData := [1, 2],
    GetRegionsPositions := [PointFeature.mk 0 0, PointFeature.mk 1 1] }

/-- Image `B` of the end-to-end example: one dense `float` descriptor `b0 = (0)`, at squared
distance 1 of `a0` and 4 of `a1`. -/
def exampleB : Regions :=
  { kind := DescriptorKind.dense, Type_id := ScalarType.float, RegionCount := 1,
    DescriptorLength := 1, DescriptorRawData := [0],
    GetRegionsPositions := [PointFeature.mk 5 5] }

/-- An image with two binary descriptors of one byte, `00000011` and `00001100`. -/
def exampleBinary : Regions :=
  { kind := DescriptorKind.binary, Type_id := ScalarType.unsigned_char, RegionCount := 2,
    DescriptorLength := 1, DescriptorRawData := [3, 12],
    GetRegionsPositions := [PointFeature.mk 2 2, PointFeature.mk 3 3] }

/-- An image with one dense `unsigned char` descriptor of one byte, `00000001`, at Hamming
distance 1 of the first descriptor of `exampleBinary` and 3 of the second. -/
def exampleDenseBytes : Regions :=
  { kind := DescriptorKind.dense, Type_id := ScalarType.unsigned_char, RegionCount := 1,
    DescriptorLength := 1, DescriptorRawData := [1],
    GetRegionsPositions := [PointFeature.mk 4 4] }

/-- A matcher object holding the images `A` (index 0) and `B` (index 1). -/
def exampleMatcher (distRatio : Scalar) (eMatcherType : EMatcherType) :
    Matcher_Regions_AllInMemory :=
  { regions_perImage := [(0, exampleA), (1, exampleB)], fDistRatio := distRatio,
    _eMatcherType := eMatcherType }

/-- A matcher object whose two descriptor sets differ in kind: a binary image (index 0)
and a dense image (index 1), both of `unsigned char` descriptors of one byte. -/
def mixedMatcher (eMatcherType : EMatcherType) : Matcher_Regions_AllInMemory :=
  { regions_perImage := [(0, exampleBinary), (1, exampleDenseBytes)], fDistRatio := 8 / 10,
    _eMatcherType := eMatcherType }

/-- A matcher object with a single descriptor set loaded. -/
def singleImageMatcher : Matcher_Regions_AllInMemory :=
  { regions_perImage := [(0, exampleA)], fDistRatio := 8 / 10,
    _eMatcherType := EMatcherType.BRUTE_FORCE_L2 }

/-- The state at the start of a run: an empty table, no call made. -/
def emptyState : MatchState := { map_PutativesMatches := [], calls := [] }

/-- A state whose table already has the key `(0, 1)`, with the list `[(7, 7)]`. -/
def occupiedState : MatchState :=
  { map_PutativesMatches := [(toLex (0, 1), [IndMatch.mk 7 7])], calls := [] }

end openMVG

/-! ## Properties of the std::map operations -/

namespace openMVG
namespace StdMap

variable {κ ν : Type} [LinearOrder κ]

theorem find_isSome_iff (m : StdMap κ ν) (k : κ) : (find m k).isSome = true ↔ k ∈ keys m := by
  induction m with
  | nil => simp [find, keys]
  | cons e rest ih =>
    obtain ⟨k', v⟩ := e
    by_cases h : k' = k
    · simp [find, keys, h]
    · have h' : ¬ k = k' := fun h1 => h h1.symm
      simpa [find, keys, h, h'] using ih

theorem find_eq_none_iff (m : StdMap κ ν) (k : κ) : find m k = none ↔ k ∉ keys m := by
  rw [← find_isSome_iff]
  cases find m k <;> simp

theorem ordered_nil : Ordered ([] : StdMap κ ν) := by
  simp [Ordered, keys]

theorem ordered_cons {e : κ × ν} {m : StdMap κ ν} :
    Ordered (e :: m) ↔ (∀ k ∈ keys m, e.1 < k) ∧ Ordered m := by
  simp [Ordered, keys, List.pairwise_cons]

theorem nodup_keys {m : StdMap κ ν} (h : Ordered m) : (keys m).Nodup :=
  List.Pairwise.imp (fun hlt => ne_of_lt hlt) h

theorem mem_keys_alter (f : Option ν → ν) (k : κ) (m : StdMap κ ν) (k' : κ) :
    k' ∈ keys (alter f k m) ↔ k' = k ∨ k' ∈ keys m := by
  induction m with
  | nil => simp [alter, keys]
  | cons e rest ih =>
    obtain ⟨k0, v⟩ := e
    unfold alter
    split_ifs with h1 h2
    · simp [keys]
    · subst h2
      simp [keys]
    · have : k' ∈ keys ((k0, v) :: alter f k rest) ↔ k' = k0 ∨ k' ∈ keys (alter f k rest) := by
        simp [keys]
      rw [this, ih]
      simp [keys]
      tauto

theorem ordered_alter (f : Option ν → ν) (k : κ) {m : StdMap κ ν} (h : Ordered m) :
    Ordered (alter f k m) := by
  induction m with
  | nil => simp [alter, Ordered, keys]
  | cons e rest ih =>
    obtain ⟨k0, v⟩ := e
    rw [ordered_cons] at h
    unfold alter
    split_ifs with h1 h2
    · rw [ordered_cons]
      refine ⟨?_, ordered_cons.2 h⟩
      intro k1 hk1
      simp only [keys, List.map_cons, List.mem_cons] at hk1
      rcases hk1 with rfl | hk1
      · exact h1
      · exact lt_trans h1 (h.1 k1 hk1)
    · rw [ordered_cons]
      exact h
    · rw [ordered_cons]
      refine ⟨?_, ih h.2⟩
      intro k1 hk1
      rw [mem_keys_alter] at hk1
      rcases hk1 with rfl | hk1
      · exact lt_of_le_of_ne (not_lt.1 h1) (fun h3 => h2 h3.symm)
      · exact h.1 k1 hk1

theorem find_alter (f : Option ν → ν) (k : κ) {m : StdMap κ ν} (h : Ordered m) (k' : κ) :
    find (alter f k m) k' = if k' = k then some (f (find m k)) else find m k' := by
  induction m with
  | nil =>
    by_cases hk : k = k'
    · simp [alter, find, hk]
    · have hk' : ¬ k' = k := fun h1 => hk h1.symm
      simp [alter, find, hk, hk']
  | cons e rest ih =>
    obtain ⟨k0, v⟩ := e
    rw [ordered_cons] at h
    by_cases h1 : k < k0
    · have hnone : find ((k0, v) :: rest) k = none := by
        rw [find_eq_none_iff]
        intro hmem
        simp only [keys, List.map_cons, List.mem_cons] at hmem
        rcases hmem with rfl | hmem
        · exact lt_irrefl _ h1
        · exact lt_asymm h1 (h.1 _ hmem)
      by_cases h3 : k' = k
      · subst h3
        have hnone' : (if k0 = k' then some v else find rest k') = none := hnone
        simp [alter, h1, find, hnone']
      · have hk : ¬ k = k' := fun h6 => h3 h6.symm
        simp [alter, h1, find, hk, h3]
    · by_cases h2 : k = k0
      · subst h2
        by_cases h4 : k' = k
        · subst h4
          simp [alter, find]
        · have hk : ¬ k = k' := fun h6 => h4 h6.symm
          simp [alter, find, hk, h4]
      · have hk0 : ¬ k0 = k := fun h6 => h2 h6.symm
        by_cases h5 : k' = k
        · subst h5
          simp [alter, h1, h2, find, hk0, ih h.2]
        · by_cases h6 : k0 = k'
          · subst h6
            simp [alter, h1, h2, find, h5]
          · simp [alter, h1, h2, find, h6, ih h.2, h5, hk0]

theorem find_insert (k : κ) (v : ν) {m : StdMap κ ν} (h : Ordered m) (k' : κ) :
    find (insert k v m) k' = if k' = k then some ((find m k).getD v) else find m k' :=
  find_alter _ k h k'

theorem ordered_insert (k : κ) (v : ν) {m : StdMap κ ν} (h : Ordered m) :
    Ordered (insert k v m) :=
  ordered_alter _ k h

theorem mem_iff_find {m : StdMap κ ν} (h : Ordered m) (k : κ) (v : ν) :
    (k, v) ∈ m ↔ find m k = some v := by
  induction m with
  | nil => simp [find]
  | cons e rest ih =>
    obtain ⟨k0, v0⟩ := e
    rw [ordered_cons] at h
    by_cases hk : k0 = k
    · subst hk
      have hnot : (k0, v) ∉ rest := by
        intro hmem
        have : k0 ∈ keys rest := List.mem_map.2 ⟨(k0, v), hmem, rfl⟩
        exact lt_irrefl _ (h.1 _ this)
      simp [find, hnot, eq_comm]
    · have hk' : ¬ k = k0 := fun h1 => hk h1.symm
      simp [find, hk, hk', ih h.2]

end StdMap
end openMVG

/-! ## Properties of the ratio filter and of the pipeline of one pair -/

namespace openMVG

theorem NNdistanceRatio_two (distances : List Scalar) (τ : Scalar) :
    NNdistanceRatio distances NNN__ τ =
      (List.range (distances.length / 2)).filter
        (fun k => decide (distances.getD (2 * k) 0 < τ * distances.getD (2 * k + 1) 0)) := by
  unfold NNdistanceRatio NNN__
  apply List.filter_congr
  intro k hk
  rw [List.mem_range] at hk
  have h0 : k * 2 < distances.length := by omega
  have h1 : k * 2 + 1 < distances.length := by omega
  have e0 : 2 * k = k * 2 := by omega
  simp [List.getD_eq_getElem?_getD, List.getElem?_eq_getElem h0,
    List.getElem?_eq_getElem h1, e0]

theorem filteredMatches_eq_map (indices : List Nat) :
    ∀ ks : List Nat, (∀ k ∈ ks, k * NNN__ < indices.length) →
      filteredMatches indices ks =
        some (ks.map (fun k => IndMatch.mk (indices.getD (2 * k) 0) k)) := by
  intro ks
  induction ks with
  | nil => intro _; rfl
  | cons k rest ih =>
    intro h
    have hk : k * NNN__ < indices.length := h k (List.mem_cons_self _ _)
    have hrest := ih (fun k' hk' => h k' (List.mem_cons_of_mem _ hk'))
    have e0 : 2 * k = k * NNN__ := by unfold NNN__; omega
    simp [filteredMatches, hrest, List.getElem?_eq_getElem hk, List.getD_eq_getElem?_getD, e0]

theorem filteredMatches_ratio (indices : List Nat) (distances : List Scalar) (τ : Scalar)
    (h : indices.length = distances.length) :
    filteredMatches indices (NNdistanceRatio distances NNN__ τ) =
      some (ratioTestSurvivors indices distances τ) := by
  rw [filteredMatches_eq_map]
  · rw [NNdistanceRatio_two]
    rfl
  · intro k hk
    rw [NNdistanceRatio_two, List.mem_filter, List.mem_range] at hk
    unfold NNN__
    omega

theorem putativeMatches_eq (M : MatcherT) (hM : ParallelOutputs M) (τ : Scalar)
    (matcher10 : M.Index) (pointFeaturesI : List PointFeature) (regionsJ : Regions) :
    putativeMatches M τ matcher10 pointFeaturesI regionsJ =
      some (dedup pointFeaturesI regionsJ.GetRegionsPositions
        (ratioTestSurvivors
          (M.SearchNeighbours matcher10 regionsJ.DescriptorRawData regionsJ.RegionCount 2).1
          (M.SearchNeighbours matcher10 regionsJ.DescriptorRawData regionsJ.RegionCount 2).2
          τ)) := by
  unfold putativeMatches
  simp only []
  rw [filteredMatches_ratio _ _ _ (hM _ _ _ _)]
  rfl

theorem bruteForceMatcher_parallel (metric : List Scalar → List Scalar → Scalar) :
    ParallelOutputs (bruteForceMatcher metric) := by
  intro ix query nbQuery NN
  cases ix with
  | none => rfl
  | some ix =>
    show (List.map Prod.fst _).length = (List.map Prod.snd _).length
    rw [List.length_map, List.length_map]

end openMVG

/-! ## Properties of the grouping by anchor and of the two loops -/

namespace openMVG

open StdMap

theorem foreignImages_cons (p : Nat × Nat) (ps : Pair_Set) (A : Nat) :
    foreignImages (p :: ps) A =
      if p.1 = A then p.2 :: foreignImages ps A else foreignImages ps A := by
  unfold foreignImages
  by_cases h : p.1 = A <;> simp [List.filter_cons, h]

theorem map_Pairs_fold (ps : Pair_Set) :
    ∀ acc : StdMap Nat (List Nat), Ordered acc →
      Ordered (ps.foldl (fun m iter => push_back_at iter.1 iter.2 m) acc) ∧
      ∀ A, find (ps.foldl (fun m iter => push_back_at iter.1 iter.2 m) acc) A =
        if A ∈ keys acc ∨ A ∈ ps.map Prod.fst then
          some ((find acc A).getD [] ++ foreignImages ps A)
        else none := by
  induction ps with
  | nil =>
    intro acc hacc
    refine ⟨hacc, fun A => ?_⟩
    by_cases hA : A ∈ keys acc
    · have := (find_isSome_iff acc A).2 hA
      obtain ⟨v, hv⟩ := Option.isSome_iff_exists.1 this
      simp [hA, hv, foreignImages]
    · simp [hA, (find_eq_none_iff acc A).2 hA]
  | cons p rest ih =>
    intro acc hacc
    have hacc' : Ordered (push_back_at p.1 p.2 acc) := ordered_alter _ _ hacc
    obtain ⟨ho, hf⟩ := ih _ hacc'
    refine ⟨ho, fun A => ?_⟩
    rw [List.foldl_cons, hf A]
    have hkeys : A ∈ keys (push_back_at p.1 p.2 acc) ↔ A = p.1 ∨ A ∈ keys acc :=
      mem_keys_alter _ _ _ _
    have hfind : find (push_back_at p.1 p.2 acc) A =
        if A = p.1 then some ((find acc p.1).getD [] ++ [p.2]) else find acc A :=
      find_alter _ _ hacc _
    rw [foreignImages_cons, hfind]
    by_cases hA : A = p.1
    · subst hA
      simp [hkeys]
    · have hA' : ¬ p.1 = A := fun h => hA h.symm
      have hmem : (A ∈ keys (push_back_at p.1 p.2 acc) ∨ A ∈ rest.map Prod.fst) ↔
          (A ∈ keys acc ∨ A ∈ (p :: rest).map Prod.fst) := by
        rw [hkeys]
        simp [hA]
      simp only [hA, hA', if_false]
      by_cases hc : A ∈ keys acc ∨ A ∈ (p :: rest).map Prod.fst
      · rw [if_pos hc, if_pos (hmem.2 hc)]
      · rw [if_neg hc, if_neg (fun h => hc (hmem.1 h))]

theorem ordered_map_Pairs (pairs : Pair_Set) : Ordered (map_Pairs pairs) :=
  (map_Pairs_fold pairs [] ordered_nil).1

theorem find_map_Pairs (pairs : Pair_Set) (A : Nat) :
    find (map_Pairs pairs) A =
      if A ∈ pairs.map Prod.fst then some (foreignImages pairs A) else none := by
  have h := (map_Pairs_fold pairs [] ordered_nil).2 A
  have hnil : ¬ A ∈ keys ([] : StdMap Nat (List Nat)) := by simp [keys]
  have hfind : find ([] : StdMap Nat (List Nat)) A = none := rfl
  rw [hfind] at h
  unfold map_Pairs
  rw [h]
  by_cases hc : A ∈ pairs.map Prod.fst
  · rw [if_pos hc, if_pos (Or.inr hc)]
    rfl
  · rw [if_neg hc, if_neg (fun h => h.elim hnil hc)]

theorem mem_foreignImages (pairs : Pair_Set) (A F : Nat) :
    F ∈ foreignImages pairs A ↔ (A, F) ∈ pairs := by
  unfold foreignImages
  simp only [List.mem_map, List.mem_filter, decide_eq_true_eq]
  constructor
  · rintro ⟨p, ⟨hp, rfl⟩, rfl⟩
    exact hp
  · intro h
    exact ⟨(A, F), ⟨h, rfl⟩, rfl⟩

theorem mem_map_Pairs (pairs : Pair_Set) (A : Nat) (js : List Nat) :
    (A, js) ∈ map_Pairs pairs ↔ A ∈ pairs.map Prod.fst ∧ js = foreignImages pairs A := by
  rw [mem_iff_find (ordered_map_Pairs pairs), find_map_Pairs]
  by_cases h : A ∈ pairs.map Prod.fst
  · simp [h, eq_comm]
  · simp [h]

theorem mem_groupedPairs (groups : StdMap Nat (List Nat)) (A F : Nat) :
    (A, F) ∈ groupedPairs groups ↔ ∃ js, (A, js) ∈ groups ∧ F ∈ js := by
  unfold groupedPairs
  simp only [List.mem_flatMap, List.mem_map, Prod.mk.injEq, Prod.exists]
  constructor
  · rintro ⟨I, js, hmem, J, hJ, rfl, rfl⟩
    exact ⟨js, hmem, hJ⟩
  · rintro ⟨js, hmem, hF⟩
    exact ⟨A, js, hmem, F, hF, rfl, rfl⟩

theorem mem_groupedPairs_map_Pairs (pairs : Pair_Set) (A F : Nat) :
    (A, F) ∈ groupedPairs (map_Pairs pairs) ↔ (A, F) ∈ pairs := by
  rw [mem_groupedPairs]
  constructor
  · rintro ⟨js, hmem, hF⟩
    rw [mem_map_Pairs] at hmem
    rw [hmem.2, mem_foreignImages] at hF
    exact hF
  · intro h
    refine ⟨foreignImages pairs A, (mem_map_Pairs _ _ _).2 ⟨?_, rfl⟩, (mem_foreignImages _ _ _).2 h⟩
    exact List.mem_map.2 ⟨(A, F), h, rfl⟩

theorem pairsLoaded_iff (regions_perImage : StdMap Nat Regions) (pairs : Pair_Set) :
    pairsLoaded regions_perImage pairs = true ↔
      ∀ A F, (A, F) ∈ pairs →
        (find regions_perImage A).isSome = true ∧ (find regions_perImage F).isSome = true := by
  unfold pairsLoaded
  simp only [List.all_eq_true, Bool.and_eq_true, Prod.forall]

theorem singlePairMatches_eq (M : MatcherT) (hM : ParallelOutputs M)
    (regions_perImage : StdMap Nat Regions) (τ : Scalar) (A F : Nat) (regionsA regionsF : Regions)
    (hA : find regions_perImage A = some regionsA) (hF : find regions_perImage F = some regionsF) :
    singlePairMatches M regions_perImage τ A F =
      some (dedup regionsA.GetRegionsPositions regionsF.GetRegionsPositions
        (ratioTestSurvivors
          (M.SearchNeighbours
            (M.Build regionsA.DescriptorRawData regionsA.RegionCount regionsA.DescriptorLength)
            regionsF.DescriptorRawData regionsF.RegionCount 2).1
          (M.SearchNeighbours
            (M.Build regionsA.DescriptorRawData regionsA.RegionCount regionsA.DescriptorLength)
            regionsF.DescriptorRawData regionsF.RegionCount 2).2
          τ)) := by
  unfold singlePairMatches
  simp only [hA, hF]
  exact putativeMatches_eq M hM τ _ _ _

theorem singlePairMatches_isSome (M : MatcherT) (hM : ParallelOutputs M)
    (regions_perImage : StdMap Nat Regions) (τ : Scalar) (A F : Nat)
    (hA : (find regions_perImage A).isSome = true) (hF : (find regions_perImage F).isSome = true) :
    (singlePairMatches M regions_perImage τ A F).isSome = true := by
  obtain ⟨rA, hrA⟩ := Option.isSome_iff_exists.1 hA
  obtain ⟨rF, hrF⟩ := Option.isSome_iff_exists.1 hF
  rw [singlePairMatches_eq M hM _ τ A F rA rF hrA hrF]
  rfl

theorem matchForeign_eq (M : MatcherT) (hM : ParallelOutputs M)
    (regions_perImage : StdMap Nat Regions) (τ : Scalar) (I : Nat) (regionsI : Regions)
    (hI : find regions_perImage I = some regionsI) :
    ∀ (js : List Nat) (st : MatchState),
      (∀ J ∈ js, (find regions_perImage J).isSome = true) →
      matchForeign M regions_perImage τ I
          (M.Build regionsI.DescriptorRawData regionsI.RegionCount regionsI.DescriptorLength)
          regionsI.GetRegionsPositions js st =
        some
          { map_PutativesMatches :=
              publishAll (fun A F => (singlePairMatches M regions_perImage τ A F).getD [])
                (js.map (fun J => (I, J))) st.map_PutativesMatches
            calls := st.calls ++
              js.flatMap (fun J => [Call.SearchNeighbours I J, Call.NNdistanceRatio I J τ]) } := by
  intro js
  induction js with
  | nil =>
    intro st _
    simp [matchForeign, publishAll]
  | cons J rest ih =>
    intro st h
    obtain ⟨rJ, hrJ⟩ := Option.isSome_iff_exists.1 (h J (List.mem_cons_self _ _))
    have hsingle := singlePairMatches_eq M hM regions_perImage τ I J regionsI rJ hI hrJ
    have hput := putativeMatches_eq M hM τ
      (M.Build regionsI.DescriptorRawData regionsI.RegionCount regionsI.DescriptorLength)
      regionsI.GetRegionsPositions rJ
    unfold matchForeign
    simp only [hrJ, hput]
    rw [ih _ (fun J' hJ' => h J' (List.mem_cons_of_mem _ hJ'))]
    simp [publishAll, hsingle, List.flatMap_cons]

theorem groupedPairs_cons (I : Nat) (js : List Nat) (rest : StdMap Nat (List Nat)) :
    groupedPairs ((I, js) :: rest) = js.map (fun J => (I, J)) ++ groupedPairs rest := by
  simp [groupedPairs, List.flatMap_cons]

theorem publishAll_append (val : Nat → Nat → List IndMatch) (ps qs : List (Nat × Nat))
    (table : PairWiseMatches) :
    publishAll val (ps ++ qs) table = publishAll val qs (publishAll val ps table) := by
  simp [publishAll, List.foldl_append]

theorem matchAnchors_eq (M : MatcherT) (hM : ParallelOutputs M)
    (regions_perImage : StdMap Nat Regions) (τ : Scalar) :
    ∀ (groups : StdMap Nat (List Nat)) (st : MatchState),
      (∀ g ∈ groups, (find regions_perImage g.1).isSome = true ∧
        ∀ J ∈ g.2, (find regions_perImage J).isSome = true) →
      matchAnchors M regions_perImage τ groups st =
        some
          { map_PutativesMatches :=
              publishAll (fun A F => (singlePairMatches M regions_perImage τ A F).getD [])
                (groupedPairs groups) st.map_PutativesMatches
            calls := st.calls ++ groupCalls τ groups } := by
  intro groups
  induction groups with
  | nil =>
    intro st _
    simp [matchAnchors, publishAll, groupedPairs, groupCalls]
  | cons g rest ih =>
    intro st h
    obtain ⟨I, js⟩ := g
    obtain ⟨hI, hjs⟩ := h (I, js) (List.mem_cons_self _ _)
    obtain ⟨rI, hrI⟩ := Option.isSome_iff_exists.1 hI
    unfold matchAnchors
    simp only [hrI]
    rw [matchForeign_eq M hM regions_perImage τ I rI hrI js _ hjs]
    simp only []
    rw [ih _ (fun g' hg' => h g' (List.mem_cons_of_mem _ hg'))]
    simp [groupedPairs_cons, publishAll_append, groupCalls, List.flatMap_cons]

theorem map_Pairs_loaded (regions_perImage : StdMap Nat Regions) (pairs : Pair_Set)
    (h : pairsLoaded regions_perImage pairs = true) :
    ∀ g ∈ map_Pairs pairs, (find regions_perImage g.1).isSome = true ∧
      ∀ J ∈ g.2, (find regions_perImage J).isSome = true := by
  rw [pairsLoaded_iff] at h
  rintro ⟨A, js⟩ hg
  rw [mem_map_Pairs] at hg
  obtain ⟨hA, rfl⟩ := hg
  obtain ⟨p, hp, rfl⟩ := List.mem_map.1 hA
  refine ⟨(h p.1 p.2 hp).1, fun J hJ => ?_⟩
  rw [mem_foreignImages] at hJ
  exact (h _ _ hJ).2

theorem Match_MatcherT_eq (M : MatcherT) (hM : ParallelOutputs M)
    (self : Matcher_Regions_AllInMemory) (pairs : Pair_Set) (st : MatchState)
    (h : pairsLoaded self.regions_perImage pairs = true) :
    Matcher_Regions_AllInMemory.Match_MatcherT M self pairs st =
      some
        { map_PutativesMatches :=
            publishAll
              (fun A F => (singlePairMatches M self.regions_perImage self.fDistRatio A F).getD [])
              (groupedPairs (map_Pairs pairs)) st.map_PutativesMatches
          calls := st.calls ++ groupCalls self.fDistRatio (map_Pairs pairs) } :=
  matchAnchors_eq M hM _ _ _ _ (map_Pairs_loaded _ _ h)

theorem ordered_publishAll (val : Nat → Nat → List IndMatch) (ps : List (Nat × Nat)) :
    ∀ table : PairWiseMatches, Ordered table → Ordered (publishAll val ps table) := by
  induction ps with
  | nil => intro table h; exact h
  | cons p rest ih =>
    intro table h
    exact ih _ (ordered_insert _ _ h)

theorem find_publishAll (val : Nat → Nat → List IndMatch) (ps : List (Nat × Nat)) :
    ∀ table : PairWiseMatches, Ordered table → ∀ A F : Nat,
      find (publishAll val ps table) (toLex (A, F)) =
        match find table (toLex (A, F)) with
        | some l => some l
        | none => if (A, F) ∈ ps then some (val A F) else none := by
  induction ps with
  | nil =>
    intro table _ A F
    cases h : find table (toLex (A, F)) <;> simp [publishAll, h]
  | cons p rest ih =>
    intro table h A F
    have hstep : publishAll val (p :: rest) table =
        publishAll val rest (insert (toLex p) (val p.1 p.2) table) := rfl
    rw [hstep, ih _ (ordered_insert _ _ h) A F, find_insert _ _ h]
    by_cases hp : (A, F) = p
    · subst hp
      cases h1 : find table (toLex (A, F)) <;> simp [h1]
    · have hp' : ¬ toLex (A, F) = toLex p := fun e => hp (toLex.injective e)
      have hp'' : ¬ p = (A, F) := fun e => hp e.symm
      cases h1 : find table (toLex (A, F)) <;> simp [h1, hp, hp', hp'']

theorem matchNaive_eq (M : MatcherT) (hM : ParallelOutputs M)
    (regions_perImage : StdMap Nat Regions) (τ : Scalar) :
    ∀ (ps : List (Nat × Nat)) (table : PairWiseMatches),
      pairsLoaded regions_perImage ps = true →
      matchNaive M regions_perImage τ ps table =
        some (publishAll (fun A F => (singlePairMatches M regions_perImage τ A F).getD [])
          ps table) := by
  intro ps
  induction ps with
  | nil => intro table _; rfl
  | cons p rest ih =>
    intro table h
    obtain ⟨A, F⟩ := p
    have h' := (pairsLoaded_iff _ _).1 h
    have hAF := h' A F (List.mem_cons_self _ _)
    obtain ⟨l, hl⟩ := Option.isSome_iff_exists.1
      (singlePairMatches_isSome M hM regions_perImage τ A F hAF.1 hAF.2)
    have hrest : pairsLoaded regions_perImage rest = true :=
      (pairsLoaded_iff _ _).2 (fun A' F' hm => h' A' F' (List.mem_cons_of_mem _ hm))
    unfold matchNaive
    simp only [hl]
    rw [ih _ hrest]
    simp [publishAll, hl]

end openMVG

/-! ## Properties of the deduplication -/

namespace openMVG

theorem dropDuplicates_sublist {α : Type} (same : α → α → Bool) :
    ∀ (l kept : List α), (dropDuplicates same kept l).Sublist l := by
  intro l
  induction l with
  | nil => intro kept; simp [dropDuplicates]
  | cons x xs ih =>
    intro kept
    unfold dropDuplicates
    split
    · exact (ih kept).trans (List.sublist_cons_self x xs)
    · exact (ih (x :: kept)).cons₂ x

theorem dropDuplicates_fixed {α : Type} (same : α → α → Bool) :
    ∀ (l kept : List α), l.Pairwise (fun a b => same a b = false) →
      (∀ x ∈ l, ∀ y ∈ kept, same y x = false) → dropDuplicates same kept l = l := by
  intro l
  induction l with
  | nil => intro kept _ _; simp [dropDuplicates]
  | cons x xs ih =>
    intro kept hp hk
    rw [List.pairwise_cons] at hp
    have hx : kept.any (fun y => same y x) = false := by
      rw [List.any_eq_false]
      intro y hy
      simp [hk x (List.mem_cons_self _ _) y hy]
    unfold dropDuplicates
    rw [hx]
    simp only [Bool.false_eq_true, if_false]
    rw [ih (x :: kept) hp.2]
    intro z hz y hy
    rcases List.mem_cons.1 hy with rfl | hy
    · exact hp.1 z hz
    · exact hk z (List.mem_cons_of_mem _ hz) y hy

theorem dropDuplicates_clean {α : Type} (same : α → α → Bool) :
    ∀ (l kept : List α),
      (dropDuplicates same kept l).Pairwise (fun a b => same a b = false) ∧
      ∀ x ∈ dropDuplicates same kept l, ∀ y ∈ kept, same y x = false := by
  intro l
  induction l with
  | nil => intro kept; simp [dropDuplicates]
  | cons x xs ih =>
    intro kept
    unfold dropDuplicates
    split
    · exact ih kept
    · rename_i hx
      have hx' : kept.any (fun y => same y x) = false := by simpa using hx
      rw [List.any_eq_false] at hx'
      obtain ⟨hp, hk⟩ := ih (x :: kept)
      refine ⟨List.pairwise_cons.2 ⟨fun z hz => hk z hz x (List.mem_cons_self _ _), hp⟩, ?_⟩
      intro z hz y hy
      rcases List.mem_cons.1 hz with rfl | hz
      · simpa using hx' y hy
      · exact hk z hz y (List.mem_cons_of_mem _ hy)

theorem dropDuplicates_idem {α : Type} (same : α → α → Bool) (l : List α) :
    dropDuplicates same [] (dropDuplicates same [] l) = dropDuplicates same [] l :=
  dropDuplicates_fixed same _ [] (dropDuplicates_clean same l []).1
    (fun _ _ _ hy => absurd hy (List.not_mem_nil _))

theorem getDeduplicated_of_sublist (l l' : List IndMatch)
    (h : l'.Sublist (IndMatch.getDeduplicated l)) : IndMatch.getDeduplicated l' = l' :=
  dropDuplicates_fixed _ _ []
    (List.Pairwise.sublist h (dropDuplicates_clean _ l []).1)
    (fun _ _ _ hy => absurd hy (List.not_mem_nil _))

/-- C7: the deduplication applied by `Match` (index-pair dedup, then coordinate dedup) is
idempotent: for every correspondence list and every two position sequences, running the two
passes on a list that has already gone through them gives that list back, and so does each
pass on its own output. -/
theorem dedup_idempotent (pointFeaturesI pointFeaturesJ : List PointFeature)
    (l : List IndMatch) :
    dedup pointFeaturesI pointFeaturesJ (dedup pointFeaturesI pointFeaturesJ l) =
        dedup pointFeaturesI pointFeaturesJ l ∧
      IndMatch.getDeduplicated (IndMatch.getDeduplicated l) = IndMatch.getDeduplicated l ∧
      IndMatchDecorator.getDeduplicated pointFeaturesI pointFeaturesJ
          (IndMatchDecorator.getDeduplicated pointFeaturesI pointFeaturesJ l) =
        IndMatchDecorator.getDeduplicated pointFeaturesI pointFeaturesJ l := by
  refine ⟨?_, dropDuplicates_idem _ l, dropDuplicates_idem _ l⟩
  unfold dedup
  have hsub : (IndMatchDecorator.getDeduplicated pointFeaturesI pointFeaturesJ
      (IndMatch.getDeduplicated l)).Sublist (IndMatch.getDeduplicated l) :=
    dropDuplicates_sublist _ _ _
  rw [getDeduplicated_of_sublist l _ hsub]
  exact dropDuplicates_idem _ _

end openMVG

/-! ## The ratio test as `Match<MatcherT>` applies it -/

namespace openMVG

theorem mem_ratioTestSurvivors (indices : List Nat) (distances : List Scalar) (τ : Scalar)
    (i k : Nat) :
    IndMatch.mk i k ∈ ratioTestSurvivors indices distances τ ↔
      k < distances.length / 2 ∧
        distances.getD (2 * k) 0 < τ * distances.getD (2 * k + 1) 0 ∧
        i = indices.getD (2 * k) 0 := by
  unfold ratioTestSurvivors
  simp only [List.mem_map, List.mem_filter, List.mem_range, decide_eq_true_eq,
    IndMatch.mk.injEq]
  constructor
  · rintro ⟨k', ⟨hk, hlt⟩, hi, rfl⟩
    exact ⟨hk, hlt, hi.symm⟩
  · rintro ⟨hk, hlt, hi⟩
    exact ⟨k, ⟨hk, hlt⟩, hi.symm, rfl⟩

/-- C1: in `Match<MatcherT>`, for every foreign descriptor `k` whose two nearest anchor
distances are `d0` and `d1` and whose nearest anchor neighbour has index `i`, and for every
threshold `τ`, the correspondence `(i, k)` is among the filtered matches if and only if
`d0 < τ * d1`; the inequality is strict, so the boundary case `d0 = τ * d1` is rejected.
With `d0 = 0.10` and `d1 = 0.50` the correspondence is kept for `τ = 0.3` and rejected for
`τ = 0.2`. -/
theorem ratio_test_keeps_iff_strictly_below :
    (∀ (indices : List Nat) (distances : List Scalar) (τ : Scalar) (k i : Nat) (d0 d1 : Scalar),
      indices.length = distances.length →
      indices[k * NNN__]? = some i →
      distances[k * NNN__]? = some d0 →
      distances[k * NNN__ + 1]? = some d1 →
      ∃ l, filteredMatches indices (NNdistanceRatio distances NNN__ τ) = some l ∧
        (IndMatch.mk i k ∈ l ↔ d0 < τ * d1) ∧
        (d0 = τ * d1 → IndMatch.mk i k ∉ l)) ∧
    filteredMatches [0, 1] (NNdistanceRatio [1 / 10, 1 / 2] NNN__ (3 / 10)) =
      some [IndMatch.mk 0 0] ∧
    filteredMatches [0, 1] (NNdistanceRatio [1 / 10, 1 / 2] NNN__ (2 / 10)) = some [] := by
  refine ⟨?_, by with_unfolding_all decide, by with_unfolding_all decide⟩
  intro indices distances τ k i d0 d1 hlen hi hd0 hd1
  have hiff : IndMatch.mk i k ∈ ratioTestSurvivors indices distances τ ↔ d0 < τ * d1 := by
    rw [mem_ratioTestSurvivors]
    have e0 : 2 * k = k * NNN__ := by unfold NNN__; omega
    have e1 : 2 * k + 1 = k * NNN__ + 1 := by rw [e0]
    have hk : k < distances.length / 2 := by
      have := (List.getElem?_eq_some.1 hd1).1
      unfold NNN__ at this
      omega
    simp [List.getD_eq_getElem?_getD, e0, hi, hd0, hd1, hk]
  refine ⟨_, filteredMatches_ratio indices distances τ hlen, hiff, ?_⟩
  intro heq hmem
  exact absurd (hiff.1 hmem) (by rw [heq]; exact lt_irrefl _)

/-- Witness of C1: the output vectors `[0, 1]`, `[0.10, 0.50]` of one query, threshold `0.3`. -/
theorem ratio_test_keeps_iff_strictly_below_witness :
    ∃ l, filteredMatches [0, 1] (NNdistanceRatio [1 / 10, 1 / 2] NNN__ (3 / 10)) = some l ∧
      (IndMatch.mk 0 0 ∈ l ↔ (1 / 10 : Scalar) < 3 / 10 * (1 / 2)) ∧
      ((1 / 10 : Scalar) = 3 / 10 * (1 / 2) → IndMatch.mk 0 0 ∉ l) :=
  ratio_test_keeps_iff_strictly_below.1 [0, 1] [1 / 10, 1 / 2] (3 / 10) 0 0 (1 / 10) (1 / 2)
    rfl rfl rfl rfl

end openMVG

/-! ## The dispatch of `Match` -/

namespace openMVG

open Matcher_Regions_AllInMemory

/-- C9: insufficient data. For every pair set, every backend library and every backend
kind, when fewer than 2 descriptor sets are loaded `Match` returns at once: it does not
throw, and it leaves the object and the state as they were, so a table that was empty is
returned empty, no matcher is built or queried (no call is recorded) and nothing is
inserted. -/
theorem Match_insufficient_data (lib : MatcherLib) (self : Matcher_Regions_AllInMemory)
    (pairs : Pair_Set) (st : MatchState) (h : StdMap.size self.regions_perImage < 2) :
    Match lib self pairs st = some (self, st) ∧
      ∀ calls, ∃ r, Match lib self pairs { map_PutativesMatches := [], calls := calls } = some r ∧
        r.2.map_PutativesMatches = [] ∧ r.2.calls = calls ∧ r.1 = self := by
  have hgen : ∀ st', Match lib self pairs st' = some (self, st') := by
    intro st'
    unfold Match
    rw [if_pos h]
  exact ⟨hgen st, fun calls => ⟨_, hgen _, rfl, rfl, rfl⟩⟩

/-- Witness of C9: one descriptor set loaded, the pair set `{(0, 1)}`. -/
theorem Match_insufficient_data_witness :
    StdMap.size singleImageMatcher.regions_perImage < 2 ∧
      Match exactBackends singleImageMatcher [(0, 1)] emptyState =
        some (singleImageMatcher, emptyState) :=
  ⟨by decide,
    (Match_insufficient_data exactBackends singleImageMatcher [(0, 1)] emptyState
      (by decide)).1⟩

/-- C3: incompatible configuration. For every collection of at least 2 descriptor sets whose
first set is `regions`, every pair set and every state, if `regions` is binary and the
backend is `BRUTE_FORCE_L2` or `ANN_L2`, or `regions` is dense and the backend is
`BRUTE_FORCE_HAMMING`, or the scalar type of `regions` is none of `unsigned char`, `float`,
`double`, then `Match` returns without throwing and leaves the object and the state as they
were: a table that was empty is still empty and no pair is processed. -/
theorem Match_incompatible_configuration (lib : MatcherLib)
    (self : Matcher_Regions_AllInMemory) (pairs : Pair_Set) (st : MatchState)
    (I : Nat) (regions : Regions) (rest : StdMap Nat Regions)
    (hfirst : self.regions_perImage = (I, regions) :: rest)
    (hsize : 2 ≤ StdMap.size self.regions_perImage)
    (h : (regions.kind = DescriptorKind.binary ∧
            (self._eMatcherType = EMatcherType.BRUTE_FORCE_L2 ∨
              self._eMatcherType = EMatcherType.ANN_L2)) ∨
          (regions.kind = DescriptorKind.dense ∧
            self._eMatcherType = EMatcherType.BRUTE_FORCE_HAMMING) ∨
          (regions.Type_id ≠ ScalarType.unsigned_char ∧ regions.Type_id ≠ ScalarType.float ∧
            regions.Type_id ≠ ScalarType.double)) :
    Match lib self pairs st = some (self, st) ∧
      ∀ calls, ∃ r, Match lib self pairs { map_PutativesMatches := [], calls := calls } = some r ∧
        r.2.map_PutativesMatches = [] ∧ r.2.calls = calls := by
  have hgen : ∀ st', Match lib self pairs st' = some (self, st') := by
    intro st'
    have hnot : ¬ StdMap.size self.regions_perImage < 2 := by omega
    unfold Match
    rw [if_neg hnot, hfirst]
    rcases h with ⟨hk, hb | hb⟩ | ⟨hk, hb⟩ | ⟨h1, h2, h3⟩
    · simp [Regions.IsScalar, Regions.IsBinary, hk, hb]
    · simp [Regions.IsScalar, Regions.IsBinary, hk, hb]
    · simp [Regions.IsScalar, Regions.IsBinary, hk, hb]
    · cases hkind : regions.kind <;> cases hb : self._eMatcherType <;>
        simp [Regions.IsScalar, Regions.IsBinary, hkind, h1, h2, h3]
  exact ⟨hgen st, fun calls => ⟨_, hgen _, rfl, rfl⟩⟩

/-- Witness of C3: the dense images `A` and `B` with the backend `BRUTE_FORCE_HAMMING`. -/
theorem Match_incompatible_configuration_witness :
    Match exactBackends (exampleMatcher (8 / 10) EMatcherType.BRUTE_FORCE_HAMMING) [(0, 1)]
        emptyState =
      some (exampleMatcher (8 / 10) EMatcherType.BRUTE_FORCE_HAMMING, emptyState) :=
  (Match_incompatible_configuration exactBackends
    (exampleMatcher (8 / 10) EMatcherType.BRUTE_FORCE_HAMMING) [(0, 1)] emptyState
    0 exampleA [(1, exampleB)] rfl (by decide) (Or.inr (Or.inl ⟨rfl, rfl⟩))).1

end openMVG

namespace openMVG

open Matcher_Regions_AllInMemory

theorem Match_of_compatible (lib : MatcherLib) (self : Matcher_Regions_AllInMemory)
    (pairs : Pair_Set) (st : MatchState) (I : Nat) (regions : Regions)
    (rest : StdMap Nat Regions) (hfirst : self.regions_perImage = (I, regions) :: rest)
    (hsize : 2 ≤ StdMap.size self.regions_perImage)
    (h : compatible regions self._eMatcherType = true) :
    Match lib self pairs st =
      callMatch (selectedMatcher lib regions.Type_id self._eMatcherType) (dispatchedObject self)
        pairs st := by
  have hnot : ¬ StdMap.size self.regions_perImage < 2 := by omega
  unfold Match
  rw [if_neg hnot, hfirst]
  unfold compatible at h
  cases hkind : regions.kind <;> cases hb : self._eMatcherType <;>
    cases hty : regions.Type_id <;>
    simp [Regions.IsScalar, Regions.IsBinary, hkind, hb, hty] at h ⊢ <;>
    simp [selectedMatcher, dispatchedObject, hb]

theorem Match_of_not_compatible (lib : MatcherLib) (self : Matcher_Regions_AllInMemory)
    (pairs : Pair_Set) (st : MatchState) (I : Nat) (regions : Regions)
    (rest : StdMap Nat Regions) (hfirst : self.regions_perImage = (I, regions) :: rest)
    (h : compatible regions self._eMatcherType = false) :
    Match lib self pairs st = some (self, st) := by
  unfold Match
  split
  · rfl
  · rw [hfirst]
    unfold compatible at h
    cases hkind : regions.kind <;> cases hb : self._eMatcherType <;>
      cases hty : regions.Type_id <;>
      simp [Regions.IsScalar, Regions.IsBinary, hkind, hb, hty] at h ⊢

theorem exactBackends_parallel : MatcherLib.Parallel exactBackends :=
  fun _ _ => ⟨bruteForceMatcher_parallel _, bruteForceMatcher_parallel _⟩

end openMVG

namespace openMVG

open Matcher_Regions_AllInMemory

/-- C2, evaluated on two successive calls: on a matcher object built with ratio `0.6` over
the dense `float` images `A` and `B` with the backend `BRUTE_FORCE_L2`, the first call of
`Match` hands the ratio test the threshold `0.36 = 0.6 * 0.6` and finds the correspondence
`(0, 0)`; the second call on the same object hands it `0.1296`, the square of the square,
and finds nothing. -/
theorem second_Match_squares_the_ratio_again :
    ∃ self1 st1 self2 st2,
      Match exactBackends (exampleMatcher (6 / 10) EMatcherType.BRUTE_FORCE_L2) [(0, 1)]
          emptyState = some (self1, st1) ∧
      Match exactBackends self1 [(0, 1)] emptyState = some (self2, st2) ∧
      st1.calls =
        [Call.Build 0, Call.SearchNeighbours 0 1, Call.NNdistanceRatio 0 1 (9 / 25)] ∧
      st2.calls =
        [Call.Build 0, Call.SearchNeighbours 0 1, Call.NNdistanceRatio 0 1 (81 / 625)] ∧
      st1.map_PutativesMatches = [(toLex (0, 1), [IndMatch.mk 0 0])] ∧
      st2.map_PutativesMatches = [(toLex (0, 1), [])] ∧
      Square (6 / 10) = 9 / 25 ∧ (81 / 625 : Scalar) ≠ Square (6 / 10) := by
  refine ⟨{ exampleMatcher (6 / 10) EMatcherType.BRUTE_FORCE_L2 with fDistRatio := 9 / 25 },
    { map_PutativesMatches := [(toLex (0, 1), [IndMatch.mk 0 0])],
      calls := [Call.Build 0, Call.SearchNeighbours 0 1, Call.NNdistanceRatio 0 1 (9 / 25)] },
    { exampleMatcher (6 / 10) EMatcherType.BRUTE_FORCE_L2 with fDistRatio := 81 / 625 },
    { map_PutativesMatches := [(toLex (0, 1), [])],
      calls := [Call.Build 0, Call.SearchNeighbours 0 1, Call.NNdistanceRatio 0 1 (81 / 625)] },
    ?_, ?_, rfl, rfl, rfl, rfl, ?_, ?_⟩
  · with_unfolding_all rfl
  · with_unfolding_all rfl
  · unfold Square; norm_num
  · unfold Square; norm_num

theorem mixedMatcher_mixed (eMatcherType : EMatcherType) :
    MixedTypes (mixedMatcher eMatcherType).regions_perImage :=
  ⟨(0, exampleBinary), by simp [mixedMatcher], (1, exampleDenseBytes), by simp [mixedMatcher],
    Or.inr (by decide)⟩

theorem mixedMatcher_uniform (eMatcherType : EMatcherType) :
    UniformLayout (mixedMatcher eMatcherType).regions_perImage exampleBinary.Type_id
      exampleBinary.DescriptorLength := by
  intro e he
  simp only [mixedMatcher, List.mem_cons, List.mem_singleton, List.not_mem_nil, or_false] at he
  rcases he with rfl | rfl
  · exact ⟨rfl, rfl, rfl⟩
  · exact ⟨rfl, rfl, rfl⟩

/-- Counterexample to C10: the collection holds a binary image and a dense image, both of
`unsigned char` descriptors of one byte, so two sets differ in kind; with the backend
`BRUTE_FORCE_HAMMING` the first set is compatible, `Match` runs the pipeline on the pair
`(0, 1)` with the Hamming metric over the bytes of both sets (distances 1 and 3, ratio 0.8
not squared) and the table it returns is `{(0, 1): [(0, 0)]}`, not empty. -/
theorem mixed_types_are_not_detected :
    MixedTypes (mixedMatcher EMatcherType.BRUTE_FORCE_HAMMING).regions_perImage ∧
      2 ≤ StdMap.size (mixedMatcher EMatcherType.BRUTE_FORCE_HAMMING).regions_perImage ∧
      hamming [3] [1] = 1 ∧ hamming [12] [1] = 3 ∧
      ∃ r, Match exactBackends (mixedMatcher EMatcherType.BRUTE_FORCE_HAMMING) [(0, 1)]
          emptyState = some r ∧
        r.2.map_PutativesMatches = [(toLex (0, 1), [IndMatch.mk 0 0])] ∧
        r.2.map_PutativesMatches ≠ [] := by
  refine ⟨mixedMatcher_mixed _, by decide, by with_unfolding_all decide,
    by with_unfolding_all decide, ?_⟩
  refine ⟨(mixedMatcher EMatcherType.BRUTE_FORCE_HAMMING,
    { map_PutativesMatches := [(toLex (0, 1), [IndMatch.mk 0 0])],
      calls := [Call.Build 0, Call.SearchNeighbours 0 1, Call.NNdistanceRatio 0 1 (8 / 10)] }),
    ?_, rfl, ?_⟩
  · with_unfolding_all rfl
  · simp

/-- C10 as amended: `Match` looks at the first descriptor set of the collection only. For
every collection of at least 2 descriptor sets in which some two sets differ in scalar type
or in kind, if the first set `regions` is not compatible with the backend then `Match`
returns without throwing and leaves the object and the state as they were (an empty table
stays empty); if the first set is compatible and every set has the scalar type and the
descriptor length of the first one, with a buffer of exactly its descriptors (the sets
differ in kind only, and each buffer is read as what it holds), the run is not treated as an
incompatible configuration: with parallel matcher outputs and all paired images loaded,
`Match` returns and every pair of the pair set has an entry in the table. Nothing is said of
a collection with a compatible first set and a set of another scalar type or descriptor
length, whose buffer the code reinterprets. -/
theorem Match_mixed_types_decided_by_first_set (lib : MatcherLib)
    (self : Matcher_Regions_AllInMemory) (pairs : Pair_Set) (st : MatchState)
    (I : Nat) (regions : Regions) (rest : StdMap Nat Regions)
    (hfirst : self.regions_perImage = (I, regions) :: rest)
    (hsize : 2 ≤ StdMap.size self.regions_perImage)
    (_hmixed : MixedTypes self.regions_perImage) :
    (compatible regions self._eMatcherType = false →
      Match lib self pairs st = some (self, st)) ∧
    (compatible regions self._eMatcherType = true →
      UniformLayout self.regions_perImage regions.Type_id regions.DescriptorLength →
      MatcherLib.Parallel lib →
      pairsLoaded self.regions_perImage pairs = true → StdMap.Ordered st.map_PutativesMatches →
      ∃ r, Match lib self pairs st = some r ∧
        ∀ A F, (A, F) ∈ pairs →
          (StdMap.find r.2.map_PutativesMatches (toLex (A, F))).isSome = true) := by
  refine ⟨fun h => Match_of_not_compatible lib self pairs st I regions rest hfirst h, ?_⟩
  intro h _ hlib hloaded hord
  have hM : ParallelOutputs (selectedMatcher lib regions.Type_id self._eMatcherType) := by
    cases hb : self._eMatcherType
    · exact (hlib _ _).1
    · exact (hlib _ _).2
    · exact (hlib _ _).1
  have hloaded' : pairsLoaded (dispatchedObject self).regions_perImage pairs = true := by
    unfold dispatchedObject
    cases self._eMatcherType <;> exact hloaded
  rw [Match_of_compatible lib self pairs st I regions rest hfirst hsize h]
  unfold callMatch
  rw [Match_MatcherT_eq _ hM _ pairs st hloaded']
  refine ⟨_, rfl, ?_⟩
  intro A F hAF
  simp only []
  rw [find_publishAll _ _ _ hord]
  have hmem := (mem_groupedPairs_map_Pairs pairs A F).2 hAF
  cases StdMap.find st.map_PutativesMatches (toLex (A, F)) <;> simp [hmem]

/-- Witness of C10 as amended: the collection of a binary and a dense image of `unsigned
char` descriptors of one byte, with the backend `BRUTE_FORCE_L2`, with which its binary
first set is not compatible, and with the backend `BRUTE_FORCE_HAMMING`, with which it is. -/
theorem Match_mixed_types_decided_by_first_set_witness :
    Match exactBackends (mixedMatcher EMatcherType.BRUTE_FORCE_L2) [(0, 1)] emptyState =
        some (mixedMatcher EMatcherType.BRUTE_FORCE_L2, emptyState) ∧
      UniformLayout (mixedMatcher EMatcherType.BRUTE_FORCE_HAMMING).regions_perImage
        exampleBinary.Type_id exampleBinary.DescriptorLength ∧
      ∃ r, Match exactBackends (mixedMatcher EMatcherType.BRUTE_FORCE_HAMMING) [(0, 1)]
          emptyState = some r ∧
        ∀ A F, (A, F) ∈ [(0, 1)] →
          (StdMap.find r.2.map_PutativesMatches (toLex (A, F))).isSome = true :=
  ⟨(Match_mixed_types_decided_by_first_set exactBackends
      (mixedMatcher EMatcherType.BRUTE_FORCE_L2) [(0, 1)] emptyState 0 exampleBinary
      [(1, exampleDenseBytes)] rfl (by decide) (mixedMatcher_mixed _)).1 rfl,
    mixedMatcher_uniform _,
    (Match_mixed_types_decided_by_first_set exactBackends
      (mixedMatcher EMatcherType.BRUTE_FORCE_HAMMING) [(0, 1)] emptyState 0 exampleBinary
      [(1, exampleDenseBytes)] rfl (by decide) (mixedMatcher_mixed _)).2 rfl
      (mixedMatcher_uniform _) exactBackends_parallel rfl StdMap.ordered_nil⟩

end openMVG

/-! ## Grouped execution against execution pair by pair -/

namespace openMVG

open StdMap Matcher_Regions_AllInMemory

theorem ordered_ext {κ ν : Type} [LinearOrder κ] :
    ∀ (m1 m2 : StdMap κ ν), Ordered m1 → Ordered m2 →
      (∀ k, find m1 k = find m2 k) → m1 = m2 := by
  intro m1
  induction m1 with
  | nil =>
    intro m2 _ _ h
    cases m2 with
    | nil => rfl
    | cons e rest =>
      have := h e.1
      simp [find] at this
  | cons e1 r1 ih =>
    intro m2 h1 h2 h
    cases m2 with
    | nil =>
      have := h e1.1
      simp [find] at this
    | cons e2 r2 =>
      obtain ⟨k1, v1⟩ := e1
      obtain ⟨k2, v2⟩ := e2
      rw [ordered_cons] at h1 h2
      have hk : k1 = k2 := by
        by_contra hne
        have a1 := h k1
        have a2 := h k2
        have hne' : ¬ k2 = k1 := fun e => hne e.symm
        simp only [find, if_true, if_neg hne, if_neg hne'] at a1 a2
        have m1 : k1 ∈ keys r2 := (find_isSome_iff r2 k1).1 (by rw [← a1]; rfl)
        have m2 : k2 ∈ keys r1 := (find_isSome_iff r1 k2).1 (by rw [a2]; rfl)
        exact lt_asymm (h2.1 k1 m1) (h1.1 k2 m2)
      subst hk
      have hv : v1 = v2 := by
        have := h k1
        simpa [find] using this
      subst hv
      have hrest : ∀ k, find r1 k = find r2 k := by
        intro k
        by_cases hkk : k1 = k
        · subst hkk
          have n1 : find r1 k1 = none :=
            (find_eq_none_iff r1 k1).2 (fun hm => lt_irrefl _ (h1.1 k1 hm))
          have n2 : find r2 k1 = none :=
            (find_eq_none_iff r2 k1).2 (fun hm => lt_irrefl _ (h2.1 k1 hm))
          rw [n1, n2]
        · have := h k
          simpa [find, hkk] using this
      rw [ih r2 h1.2 h2.2 hrest]

theorem publishAll_congr (val : Nat → Nat → List IndMatch) (ps qs : List (Nat × Nat))
    (h : ∀ A F, (A, F) ∈ ps ↔ (A, F) ∈ qs) :
    publishAll val ps [] = publishAll val qs [] := by
  apply ordered_ext _ _ (ordered_publishAll val ps [] ordered_nil)
    (ordered_publishAll val qs [] ordered_nil)
  intro k
  have hk : k = toLex ((ofLex k).1, (ofLex k).2) := rfl
  rw [hk, find_publishAll val ps [] ordered_nil, find_publishAll val qs [] ordered_nil]
  by_cases hm : ((ofLex k).1, (ofLex k).2) ∈ ps
  · simp [find, hm, (h _ _).1 hm]
  · have hm' : ¬ ((ofLex k).1, (ofLex k).2) ∈ qs := fun hq => hm ((h _ _).2 hq)
    simp [find, hm, hm']

theorem forall₂_mem {α β : Type} {R : α → β → Prop} {l1 : List α} {l2 : List β}
    (h : List.Forall₂ R l1 l2) :
    (∀ b ∈ l2, ∃ a ∈ l1, R a b) ∧ (∀ a ∈ l1, ∃ b ∈ l2, R a b) := by
  induction h with
  | nil => simp
  | cons hab _ ih =>
    constructor
    · intro b hb
      rcases List.mem_cons.1 hb with rfl | hb
      · exact ⟨_, List.mem_cons_self _ _, hab⟩
      · obtain ⟨a, ha, hr⟩ := ih.1 b hb
        exact ⟨a, List.mem_cons_of_mem _ ha, hr⟩
    · intro a ha
      rcases List.mem_cons.1 ha with rfl | ha
      · exact ⟨_, List.mem_cons_self _ _, hab⟩
      · obtain ⟨b, hb, hr⟩ := ih.2 a ha
        exact ⟨b, List.mem_cons_of_mem _ hb, hr⟩

theorem reordered_mem {groups groups' : StdMap Nat (List Nat)} (h : Reordered groups groups')
    (A : Nat) :
    (∀ js', (A, js') ∈ groups' → ∃ js, (A, js) ∈ groups ∧ js'.Perm js) ∧
      (∀ js, (A, js) ∈ groups → ∃ js', (A, js') ∈ groups' ∧ js'.Perm js) := by
  obtain ⟨mid, hmid, hperm⟩ := h
  obtain ⟨h1, h2⟩ := forall₂_mem hmid
  constructor
  · intro js' hmem
    obtain ⟨g, hg, e, hp⟩ := h1 _ (hperm.mem_iff.1 hmem)
    obtain ⟨gA, gjs⟩ := g
    simp only at e hp
    subst e
    exact ⟨gjs, hg, hp⟩
  · intro js hmem
    obtain ⟨g', hg', e, hp⟩ := h2 _ hmem
    obtain ⟨gA, gjs⟩ := g'
    simp only at e hp
    subst e
    exact ⟨gjs, hperm.mem_iff.2 hg', hp⟩

theorem reordered_groupedPairs {groups groups' : StdMap Nat (List Nat)}
    (h : Reordered groups groups') (A F : Nat) :
    (A, F) ∈ groupedPairs groups' ↔ (A, F) ∈ groupedPairs groups := by
  rw [mem_groupedPairs, mem_groupedPairs]
  constructor
  · rintro ⟨js', hmem, hF⟩
    obtain ⟨js, hjs, hp⟩ := (reordered_mem h A).1 js' hmem
    exact ⟨js, hjs, hp.mem_iff.1 hF⟩
  · rintro ⟨js, hmem, hF⟩
    obtain ⟨js', hjs, hp⟩ := (reordered_mem h A).2 js hmem
    exact ⟨js', hjs, hp.mem_iff.2 hF⟩

end openMVG

namespace openMVG

open StdMap Matcher_Regions_AllInMemory

theorem map_Pairs_singleton (A F : Nat) : map_Pairs [(A, F)] = [(A, [F])] := rfl

/-- C4: grouping by anchor preserves the results. For every pair set whose images are loaded
and every matcher type with parallel outputs, the grouped execution `Match<MatcherT>`
returns, and for every pair `(A, F)` of the set the list it stores under `(A, F)` is the
list of the pipeline run on the single pair `(A, F)` alone, which is also the whole table of
`Match<MatcherT>` run on the pair set `{(A, F)}`; no pair is added (a pair outside the set
has no key) and none is dropped; the execution pair by pair, each with an index of its own,
in any order of the pairs, gives the same table; and so does the grouped execution under
any permutation of the anchors and of the foreign images of each anchor. -/
theorem grouping_by_anchor_preserves_results (M : MatcherT) (hM : ParallelOutputs M)
    (self : Matcher_Regions_AllInMemory) (pairs : Pair_Set)
    (hloaded : pairsLoaded self.regions_perImage pairs = true) :
    ∃ st, Match_MatcherT M self pairs emptyState = some st ∧
      (∀ A F, (A, F) ∈ pairs →
        ∃ l, singlePairMatches M self.regions_perImage self.fDistRatio A F = some l ∧
          find st.map_PutativesMatches (toLex (A, F)) = some l ∧
          ∃ st1, Match_MatcherT M self [(A, F)] emptyState = some st1 ∧
            st1.map_PutativesMatches = [(toLex (A, F), l)]) ∧
      (∀ A F, (A, F) ∉ pairs → find st.map_PutativesMatches (toLex (A, F)) = none) ∧
      (∀ pairs' : List (Nat × Nat), pairs'.Perm pairs →
        matchNaive M self.regions_perImage self.fDistRatio pairs' [] =
          some st.map_PutativesMatches) ∧
      (∀ groups', Reordered (map_Pairs pairs) groups' →
        ∃ st', matchAnchors M self.regions_perImage self.fDistRatio groups' emptyState =
            some st' ∧
          st'.map_PutativesMatches = st.map_PutativesMatches) := by
  have hl := (pairsLoaded_iff _ _).1 hloaded
  refine ⟨_, Match_MatcherT_eq M hM self pairs emptyState hloaded, ?_, ?_, ?_, ?_⟩
  · intro A F hAF
    obtain ⟨l, hlist⟩ := Option.isSome_iff_exists.1
      (singlePairMatches_isSome M hM self.regions_perImage self.fDistRatio A F
        (hl A F hAF).1 (hl A F hAF).2)
    refine ⟨l, hlist, ?_, ?_⟩
    · simp only [emptyState]
      rw [find_publishAll _ _ _ ordered_nil]
      simp [find, (mem_groupedPairs_map_Pairs pairs A F).2 hAF, hlist]
    · have hsingle : pairsLoaded self.regions_perImage [(A, F)] = true := by
        rw [pairsLoaded_iff]
        intro A' F' hmem
        rw [List.mem_singleton] at hmem
        cases hmem
        exact hl A F hAF
      refine ⟨_, Match_MatcherT_eq M hM self [(A, F)] emptyState hsingle, ?_⟩
      simp [emptyState, map_Pairs_singleton, groupedPairs, publishAll, StdMap.insert, alter, hlist]
  · intro A F hAF
    simp only [emptyState]
    rw [find_publishAll _ _ _ ordered_nil]
    have hmem : ¬ (A, F) ∈ groupedPairs (map_Pairs pairs) :=
      fun hm => hAF ((mem_groupedPairs_map_Pairs pairs A F).1 hm)
    simp [find, hmem]
  · intro pairs' hperm
    have hloaded' : pairsLoaded self.regions_perImage pairs' = true := by
      rw [pairsLoaded_iff]
      intro A F hmem
      exact hl A F (hperm.mem_iff.1 hmem)
    rw [matchNaive_eq M hM _ _ pairs' [] hloaded']
    simp only [emptyState]
    congr 1
    apply publishAll_congr
    intro A F
    rw [mem_groupedPairs_map_Pairs]
    exact hperm.mem_iff
  · intro groups' hre
    have hg : ∀ g ∈ groups', (find self.regions_perImage g.1).isSome = true ∧
        ∀ J ∈ g.2, (find self.regions_perImage J).isSome = true := by
      rintro ⟨A, js'⟩ hmem
      obtain ⟨js, hjs, hp⟩ := (reordered_mem hre A).1 js' hmem
      have := map_Pairs_loaded _ _ hloaded (A, js) hjs
      exact ⟨this.1, fun J hJ => this.2 J (hp.mem_iff.1 hJ)⟩
    refine ⟨_, matchAnchors_eq M hM _ _ groups' emptyState hg, ?_⟩
    simp only [emptyState]
    apply publishAll_congr
    intro A F
    exact reordered_groupedPairs hre A F

/-- Witness of C4: the images `A` and `B`, the pair set `{(0, 1), (1, 0)}`, the brute-force
matcher with the squared L2 metric. -/
theorem grouping_by_anchor_preserves_results_witness :
    pairsLoaded (exampleMatcher (8 / 10) EMatcherType.BRUTE_FORCE_L2).regions_perImage
        [(0, 1), (1, 0)] = true ∧
      ∃ st, Match_MatcherT (bruteForceMatcher squaredL2)
          (exampleMatcher (8 / 10) EMatcherType.BRUTE_FORCE_L2) [(0, 1), (1, 0)] emptyState =
            some st ∧
        matchNaive (bruteForceMatcher squaredL2) [(0, exampleA), (1, exampleB)] (8 / 10)
          [(1, 0), (0, 1)] [] = some st.map_PutativesMatches := by
  refine ⟨rfl, ?_⟩
  obtain ⟨st, h1, _, _, h4, _⟩ := grouping_by_anchor_preserves_results
    (bruteForceMatcher squaredL2) (bruteForceMatcher_parallel squaredL2)
    (exampleMatcher (8 / 10) EMatcherType.BRUTE_FORCE_L2) [(0, 1), (1, 0)] rfl
  exact ⟨st, h1, h4 [(1, 0), (0, 1)] (List.Perm.swap _ _ _)⟩

end openMVG

/-! ## The table produced by the pipeline -/

namespace openMVG

open StdMap Matcher_Regions_AllInMemory

/-- C5: the end-to-end result of the pipeline. For every pair `(A, F)` processed, the list
published under the key `(A, F)` is the deduplication (index-pair dedup, then coordinate
dedup) of the list of the correspondences (index in `A` of the nearest neighbour of the
descriptor `k` of `F`, `k`), for the `k` in increasing order that pass the ratio test on the
two distances returned for `k`. For the two images `A = [a0, a1]`, `F = [b0]` with
distances 1 and 4 and the effective threshold 0.64, the table is exactly
`{(A, F): [(0, 0)]}`, from `Match<MatcherT>` with the threshold 0.64 as well as from
`Match` with the ratio 0.8 and the backend `BRUTE_FORCE_L2`. -/
theorem published_list_is_dedup_of_ratio_test_survivors :
    (∀ (M : MatcherT) (self : Matcher_Regions_AllInMemory) (pairs : Pair_Set) (A F : Nat)
        (regionsA regionsF : Regions),
      ParallelOutputs M → pairsLoaded self.regions_perImage pairs = true → (A, F) ∈ pairs →
      find self.regions_perImage A = some regionsA →
      find self.regions_perImage F = some regionsF →
      ∃ st indices distances,
        Match_MatcherT M self pairs emptyState = some st ∧
        M.SearchNeighbours
            (M.Build regionsA.DescriptorRawData regionsA.RegionCount regionsA.DescriptorLength)
            regionsF.DescriptorRawData regionsF.RegionCount 2 = (indices, distances) ∧
        find st.map_PutativesMatches (toLex (A, F)) =
          some (IndMatchDecorator.getDeduplicated regionsA.GetRegionsPositions
            regionsF.GetRegionsPositions
            (IndMatch.getDeduplicated
              (((List.range (distances.length / 2)).filter
                (fun k => decide
                  (distances.getD (2 * k) 0 < self.fDistRatio * distances.getD (2 * k + 1) 0))).map
                (fun k => IndMatch.mk (indices.getD (2 * k) 0) k))))) ∧
    (squaredL2 [1] [0] = 1 ∧ squaredL2 [2] [0] = 4 ∧
      (Match_MatcherT (bruteForceMatcher squaredL2)
          (exampleMatcher (64 / 100) EMatcherType.BRUTE_FORCE_L2) [(0, 1)] emptyState).map
        (fun st => st.map_PutativesMatches) = some [(toLex (0, 1), [IndMatch.mk 0 0])] ∧
      (Match exactBackends (exampleMatcher (8 / 10) EMatcherType.BRUTE_FORCE_L2) [(0, 1)]
          emptyState).map
        (fun r => (r.1.fDistRatio, r.2.map_PutativesMatches)) =
          some (64 / 100, [(toLex (0, 1), [IndMatch.mk 0 0])])) := by
  constructor
  · intro M self pairs A F regionsA regionsF hM hloaded hAF hA hF
    refine ⟨_, _, _, Match_MatcherT_eq M hM self pairs emptyState hloaded, rfl, ?_⟩
    simp only [emptyState]
    rw [find_publishAll _ _ _ ordered_nil]
    have hsingle := singlePairMatches_eq M hM self.regions_perImage self.fDistRatio A F
      regionsA regionsF hA hF
    simp only [find, (mem_groupedPairs_map_Pairs pairs A F).2 hAF, if_true, hsingle,
      Option.getD_some]
    rfl
  · refine ⟨by with_unfolding_all decide, by with_unfolding_all decide, ?_, ?_⟩
    · with_unfolding_all rfl
    · with_unfolding_all rfl

/-- Witness of C5: the images `A` and `B`, the pair set `{(0, 1)}`, the brute-force matcher
with the squared L2 metric. -/
theorem published_list_is_dedup_of_ratio_test_survivors_witness :
    ∃ st indices distances,
      Match_MatcherT (bruteForceMatcher squaredL2)
          (exampleMatcher (64 / 100) EMatcherType.BRUTE_FORCE_L2) [(0, 1)] emptyState =
        some st ∧
      (bruteForceMatcher squaredL2).SearchNeighbours
          ((bruteForceMatcher squaredL2).Build exampleA.DescriptorRawData exampleA.RegionCount
            exampleA.DescriptorLength)
          exampleB.DescriptorRawData exampleB.RegionCount 2 = (indices, distances) ∧
      find st.map_PutativesMatches (toLex (0, 1)) =
        some (IndMatchDecorator.getDeduplicated exampleA.GetRegionsPositions
          exampleB.GetRegionsPositions
          (IndMatch.getDeduplicated
            (((List.range (distances.length / 2)).filter
              (fun k => decide
                (distances.getD (2 * k) 0 < 64 / 100 * distances.getD (2 * k + 1) 0))).map
              (fun k => IndMatch.mk (indices.getD (2 * k) 0) k)))) :=
  published_list_is_dedup_of_ratio_test_survivors.1 (bruteForceMatcher squaredL2)
    (exampleMatcher (64 / 100) EMatcherType.BRUTE_FORCE_L2) [(0, 1)] 0 1 exampleA exampleB
    (bruteForceMatcher_parallel squaredL2) rfl (List.mem_singleton.2 rfl) rfl rfl

/-- Counterexample to C6: with the ratio 0.5 (threshold 0.25) the pair `(0, 1)` is
processed and yields no correspondence, since `1 < 0.25 * 4` is false, and the table
returned by `Match` has the key `(0, 1)`, with an empty list; likewise the pair `(1, 0)`,
whose anchor `B` has a single descriptor, has the key `(1, 0)` in the table returned. -/
theorem pair_without_correspondence_has_an_entry :
    (singlePairMatches (bruteForceMatcher squaredL2) [(0, exampleA), (1, exampleB)]
        (1 / 4) 0 1 = some [] ∧
      ∃ r, Match exactBackends (exampleMatcher (1 / 2) EMatcherType.BRUTE_FORCE_L2) [(0, 1)]
          emptyState = some r ∧
        r.2.map_PutativesMatches = [(toLex (0, 1), [])] ∧
        find r.2.map_PutativesMatches (toLex (0, 1)) = some []) ∧
    (exampleB.RegionCount < 2 ∧
      ∃ r, Match exactBackends (exampleMatcher (8 / 10) EMatcherType.BRUTE_FORCE_L2) [(1, 0)]
          emptyState = some r ∧
        r.2.map_PutativesMatches = [(toLex (1, 0), [])] ∧
        find r.2.map_PutativesMatches (toLex (1, 0)) = some []) := by
  refine ⟨⟨by with_unfolding_all rfl, ?_⟩, ⟨by decide, ?_⟩⟩
  · refine ⟨({ exampleMatcher (1 / 2) EMatcherType.BRUTE_FORCE_L2 with fDistRatio := 1 / 4 },
      { map_PutativesMatches := [(toLex (0, 1), [])],
        calls := [Call.Build 0, Call.SearchNeighbours 0 1, Call.NNdistanceRatio 0 1 (1 / 4)] }),
      ?_, rfl, ?_⟩
    · with_unfolding_all rfl
    · with_unfolding_all rfl
  · refine ⟨({ exampleMatcher (8 / 10) EMatcherType.BRUTE_FORCE_L2 with fDistRatio := 16 / 25 },
      { map_PutativesMatches := [(toLex (1, 0), [])],
        calls := [Call.Build 1, Call.SearchNeighbours 1 0, Call.NNdistanceRatio 1 0 (16 / 25)] }),
      ?_, rfl, ?_⟩
    · with_unfolding_all rfl
    · with_unfolding_all rfl

/-- C6 as amended: the table produced by `Match<MatcherT>` from an empty table has an entry
for a pair if and only if that pair is in the pair set, whether or not the pair yielded a
correspondence: every processed pair that yields zero correspondences is present in the
table, with an empty list. -/
theorem table_has_an_entry_for_every_processed_pair (M : MatcherT) (hM : ParallelOutputs M)
    (self : Matcher_Regions_AllInMemory) (pairs : Pair_Set)
    (hloaded : pairsLoaded self.regions_perImage pairs = true) :
    ∃ st, Match_MatcherT M self pairs emptyState = some st ∧
      (∀ A F, (find st.map_PutativesMatches (toLex (A, F))).isSome = true ↔ (A, F) ∈ pairs) ∧
      (∀ A F, (A, F) ∈ pairs →
        singlePairMatches M self.regions_perImage self.fDistRatio A F = some [] →
        find st.map_PutativesMatches (toLex (A, F)) = some []) := by
  refine ⟨_, Match_MatcherT_eq M hM self pairs emptyState hloaded, ?_, ?_⟩
  · intro A F
    simp only [emptyState]
    rw [find_publishAll _ _ _ ordered_nil, ← mem_groupedPairs_map_Pairs pairs A F]
    by_cases hm : (A, F) ∈ groupedPairs (map_Pairs pairs) <;> simp [find, hm]
  · intro A F hAF hnone
    simp only [emptyState]
    rw [find_publishAll _ _ _ ordered_nil]
    simp [find, (mem_groupedPairs_map_Pairs pairs A F).2 hAF, hnone]

/-- Witness of C6 as amended: the images `A` and `B` and the pair set `{(1, 0)}`, whose
anchor has a single descriptor. -/
theorem table_has_an_entry_for_every_processed_pair_witness :
    pairsLoaded (exampleMatcher (64 / 100) EMatcherType.BRUTE_FORCE_L2).regions_perImage
        [(1, 0)] = true ∧
      ∃ st, Match_MatcherT (bruteForceMatcher squaredL2)
          (exampleMatcher (64 / 100) EMatcherType.BRUTE_FORCE_L2) [(1, 0)] emptyState =
            some st ∧
        find st.map_PutativesMatches (toLex (1, 0)) = some [] := by
  refine ⟨rfl, ?_⟩
  obtain ⟨st, h1, _, h3⟩ := table_has_an_entry_for_every_processed_pair
    (bruteForceMatcher squaredL2) (bruteForceMatcher_parallel squaredL2)
    (exampleMatcher (64 / 100) EMatcherType.BRUTE_FORCE_L2) [(1, 0)] rfl
  exact ⟨st, h1, h3 1 0 (List.mem_singleton.2 rfl) (by with_unfolding_all rfl)⟩

end openMVG

/-! ## Calls made to the matcher objects -/

namespace openMVG

open StdMap Matcher_Regions_AllInMemory

theorem sum_at_key (φ : List Nat → Nat) (A : Nat) :
    ∀ groups : StdMap Nat (List Nat), Ordered groups →
      (groups.map (fun g => if g.1 = A then φ g.2 else 0)).sum =
        match find groups A with
        | some js => φ js
        | none => 0 := by
  intro groups
  induction groups with
  | nil => intro _; rfl
  | cons g rest ih =>
    intro h
    obtain ⟨I, js⟩ := g
    rw [ordered_cons] at h
    by_cases hI : I = A
    · subst hI
      have hnone : find rest I = none :=
        (find_eq_none_iff rest I).2 (fun hm => lt_irrefl _ (h.1 I hm))
      have hrest := ih h.2
      rw [hnone] at hrest
      simp [find, hrest]
    · simp [find, hI, ih h.2]

theorem count_foreignImages (pairs : Pair_Set) (A F : Nat) :
    (foreignImages pairs A).count F = pairs.count (A, F) := by
  induction pairs with
  | nil => rfl
  | cons p rest ih =>
    obtain ⟨I, J⟩ := p
    rw [foreignImages_cons]
    by_cases hI : I = A
    · subst hI
      by_cases hJ : J = F
      · subst hJ
        simp [ih]
      · have hne : ¬ (I, J) = (I, F) := fun e => hJ (Prod.mk.inj e).2
        simp [List.count_cons, hJ, hne, ih]
    · have hne : ¬ (I, J) = (A, F) := fun e => hI (Prod.mk.inj e).1
      simp [hI, List.count_cons, hne, ih]

theorem count_pair_of_nodup (pairs : Pair_Set) (hn : pairs.Nodup) (p : Nat × Nat)
    (hp : p ∈ pairs) : pairs.count p = 1 := by
  induction pairs with
  | nil => exact absurd hp (List.not_mem_nil _)
  | cons q rest ih =>
    rw [List.nodup_cons] at hn
    by_cases hq : q = p
    · subst hq
      simp [List.count_cons, List.count_eq_zero_of_not_mem hn.1]
    · have hp' : p ∈ rest := by
        rcases List.mem_cons.1 hp with e | hm
        · exact absurd e.symm hq
        · exact hm
      simp [List.count_cons, hq, ih hn.2 hp']

theorem length_foreignImages (pairs : Pair_Set) (A : Nat) :
    (foreignImages pairs A).length = (pairs.filter (fun p => decide (p.1 = A))).length := by
  simp [foreignImages]

theorem foreignImages_of_not_anchor (pairs : Pair_Set) (A : Nat)
    (h : A ∉ pairs.map Prod.fst) : foreignImages pairs A = [] := by
  unfold foreignImages
  rw [List.map_eq_nil_iff, List.filter_eq_nil_iff]
  intro p hp hA
  exact h (List.mem_map.2 ⟨p, hp, by simpa using hA⟩)

theorem groupCalls_cons (τ : Scalar) (I : Nat) (js : List Nat) (rest : StdMap Nat (List Nat)) :
    groupCalls τ ((I, js) :: rest) =
      Call.Build I ::
        (js.flatMap (fun J => [Call.SearchNeighbours I J, Call.NNdistanceRatio I J τ]) ++
          groupCalls τ rest) := by
  simp [groupCalls, List.flatMap_cons]

theorem count_Build_foreign (τ : Scalar) (A I : Nat) (js : List Nat) :
    (js.flatMap (fun J => [Call.SearchNeighbours I J, Call.NNdistanceRatio I J τ])).count
      (Call.Build A) = 0 := by
  induction js with
  | nil => rfl
  | cons J rest ih =>
    rw [List.flatMap_cons, List.count_append, ih]
    simp [List.count_cons]

theorem count_Search_foreign (τ : Scalar) (A F I : Nat) (js : List Nat) :
    (js.flatMap (fun J => [Call.SearchNeighbours I J, Call.NNdistanceRatio I J τ])).count
      (Call.SearchNeighbours A F) = if I = A then js.count F else 0 := by
  induction js with
  | nil => simp
  | cons J rest ih =>
    rw [List.flatMap_cons, List.count_append, ih]
    by_cases hI : I = A
    · subst hI
      by_cases hJ : J = F
      · subst hJ
        simp [List.count_cons]
        omega
      · simp [List.count_cons, hJ]
    · simp [List.count_cons, hI]

theorem countP_isSearchOn_foreign (τ : Scalar) (A I : Nat) (js : List Nat) :
    (js.flatMap (fun J => [Call.SearchNeighbours I J, Call.NNdistanceRatio I J τ])).countP
      (Call.isSearchOn A) = if I = A then js.length else 0 := by
  induction js with
  | nil => simp
  | cons J rest ih =>
    rw [List.flatMap_cons, List.countP_append, ih]
    by_cases hI : I = A
    · subst hI
      simp [List.countP_cons, Call.isSearchOn]
      omega
    · simp [List.countP_cons, Call.isSearchOn, hI]

theorem count_Build_groupCalls (τ : Scalar) (A : Nat) (groups : StdMap Nat (List Nat)) :
    (groupCalls τ groups).count (Call.Build A) =
      (groups.map (fun g => if g.1 = A then (fun _ => 1) g.2 else 0)).sum := by
  induction groups with
  | nil => rfl
  | cons g rest ih =>
    obtain ⟨I, js⟩ := g
    rw [groupCalls_cons, List.count_cons, List.count_append, count_Build_foreign, ih]
    by_cases hI : I = A
    · subst hI
      simp
      omega
    · have hne : ¬ Call.Build I = Call.Build A := fun e => hI (Call.Build.inj e)
      simp [hI, hne]

theorem count_Search_groupCalls (τ : Scalar) (A F : Nat) (groups : StdMap Nat (List Nat)) :
    (groupCalls τ groups).count (Call.SearchNeighbours A F) =
      (groups.map (fun g => if g.1 = A then (fun js => js.count F) g.2 else 0)).sum := by
  induction groups with
  | nil => rfl
  | cons g rest ih =>
    obtain ⟨I, js⟩ := g
    rw [groupCalls_cons, List.count_cons, List.count_append, count_Search_foreign, ih]
    simp

theorem countP_isSearchOn_groupCalls (τ : Scalar) (A : Nat) (groups : StdMap Nat (List Nat)) :
    (groupCalls τ groups).countP (Call.isSearchOn A) =
      (groups.map (fun g => if g.1 = A then List.length g.2 else 0)).sum := by
  induction groups with
  | nil => rfl
  | cons g rest ih =>
    obtain ⟨I, js⟩ := g
    rw [groupCalls_cons, List.countP_cons, List.countP_append, countP_isSearchOn_foreign, ih]
    simp [Call.isSearchOn]

/-- C8: index reuse. For every pair set whose images are loaded and every matcher type with
parallel outputs, in one run of `Match<MatcherT>` `Build` is called exactly once for each
distinct anchor (each first component of a pair) and for no other image; for an anchor that
appears in `N` pairs `SearchNeighbours` is called on its index exactly `N` times, once for
each occurrence of a paired foreign image (exactly once per pair when the pair set has no
duplicate). -/
theorem index_built_once_per_anchor (M : MatcherT) (hM : ParallelOutputs M)
    (self : Matcher_Regions_AllInMemory) (pairs : Pair_Set)
    (hloaded : pairsLoaded self.regions_perImage pairs = true) :
    ∃ st, Match_MatcherT M self pairs emptyState = some st ∧
      (∀ A, st.calls.count (Call.Build A) = if A ∈ pairs.map Prod.fst then 1 else 0) ∧
      (∀ A, st.calls.countP (Call.isSearchOn A) =
        (pairs.filter (fun p => decide (p.1 = A))).length) ∧
      (∀ A F, st.calls.count (Call.SearchNeighbours A F) = pairs.count (A, F)) ∧
      (pairs.Nodup → ∀ A F, (A, F) ∈ pairs →
        st.calls.count (Call.SearchNeighbours A F) = 1) := by
  have hsearch : ∀ A F, (groupCalls self.fDistRatio (map_Pairs pairs)).count
      (Call.SearchNeighbours A F) = pairs.count (A, F) := by
    intro A F
    rw [count_Search_groupCalls, sum_at_key (fun js => js.count F) A _ (ordered_map_Pairs pairs),
      find_map_Pairs]
    by_cases hA : A ∈ pairs.map Prod.fst
    · simp [hA, count_foreignImages]
    · have hnot : (A, F) ∉ pairs := fun hm => hA (List.mem_map.2 ⟨(A, F), hm, rfl⟩)
      simp [hA, List.count_eq_zero_of_not_mem hnot]
  refine ⟨_, Match_MatcherT_eq M hM self pairs emptyState hloaded, ?_, ?_, ?_, ?_⟩
  · intro A
    simp only [emptyState, List.nil_append]
    rw [count_Build_groupCalls, sum_at_key (fun _ => 1) A _ (ordered_map_Pairs pairs),
      find_map_Pairs]
    by_cases hA : A ∈ pairs.map Prod.fst <;> simp [hA]
  · intro A
    simp only [emptyState, List.nil_append]
    rw [countP_isSearchOn_groupCalls, sum_at_key List.length A _ (ordered_map_Pairs pairs),
      find_map_Pairs, ← length_foreignImages]
    by_cases hA : A ∈ pairs.map Prod.fst
    · simp [hA]
    · simp [hA, foreignImages_of_not_anchor pairs A hA]
  · intro A F
    simp only [emptyState, List.nil_append]
    exact hsearch A F
  · intro hnodup A F hAF
    simp only [emptyState, List.nil_append]
    rw [hsearch A F]
    exact count_pair_of_nodup pairs hnodup (A, F) hAF

/-- Witness of C8: the images `A` and `B`, the pair set `{(0, 0), (0, 1), (1, 0)}` in which
the anchor 0 appears in 2 pairs. -/
theorem index_built_once_per_anchor_witness :
    pairsLoaded (exampleMatcher (8 / 10) EMatcherType.BRUTE_FORCE_L2).regions_perImage
        [(0, 0), (0, 1), (1, 0)] = true ∧
      ∃ st, Match_MatcherT (bruteForceMatcher squaredL2)
          (exampleMatcher (8 / 10) EMatcherType.BRUTE_FORCE_L2) [(0, 0), (0, 1), (1, 0)]
            emptyState = some st ∧
        st.calls.count (Call.Build 0) = 1 ∧
        st.calls.countP (Call.isSearchOn 0) = 2 := by
  refine ⟨rfl, ?_⟩
  obtain ⟨st, h1, h2, h3, _⟩ := index_built_once_per_anchor
    (bruteForceMatcher squaredL2) (bruteForceMatcher_parallel squaredL2)
    (exampleMatcher (8 / 10) EMatcherType.BRUTE_FORCE_L2) [(0, 0), (0, 1), (1, 0)] rfl
  exact ⟨st, h1, by rw [h2 0]; rfl, by rw [h3 0]; rfl⟩

end openMVG

/-! ## The decision table of the dispatch -/

namespace openMVG

open StdMap Matcher_Regions_AllInMemory

theorem count_Build_map_Pairs (τ : Scalar) (pairs : Pair_Set) (A : Nat) :
    (groupCalls τ (map_Pairs pairs)).count (Call.Build A) =
      if A ∈ pairs.map Prod.fst then 1 else 0 := by
  rw [count_Build_groupCalls, sum_at_key (fun _ => 1) A _ (ordered_map_Pairs pairs),
    find_map_Pairs]
  by_cases hA : A ∈ pairs.map Prod.fst <;> simp [hA]

theorem Build_mem_groupCalls (τ : Scalar) (pairs : Pair_Set) (h : pairs ≠ []) :
    ∃ A, Call.Build A ∈ groupCalls τ (map_Pairs pairs) := by
  cases pairs with
  | nil => exact absurd rfl h
  | cons p rest =>
    refine ⟨p.1, ?_⟩
    have hc := count_Build_map_Pairs τ (p :: rest) p.1
    rw [if_pos (by simp)] at hc
    exact List.count_pos_iff.1 (by rw [hc]; exact Nat.one_pos)

/-- C11: the decision table of the Backend Selector. With at least 2 descriptor sets
loaded, of which `regions` is the first, `Match` calls `Match<MatcherT>` in exactly three
cases: for a dense set of scalar type `T` among `unsigned char`, `float`, `double` and the
backend `BRUTE_FORCE_L2`, with `ArrayMatcherBruteForce<T, L2_Vectorized<T>>` on the object
with the ratio squared; for such a set and the backend `ANN_L2`, with
`ArrayMatcher_Kdtree_Flann<T, flann::L2<T>>` on the object with the ratio squared; for a
binary set of `unsigned char` and the backend `BRUTE_FORCE_HAMMING`, with
`ArrayMatcherBruteForce<unsigned char, Hamming<unsigned char>>` on the object as it is. The
two L2 metric types compute the squared L2 distance and the Hamming type the Hamming
distance. In every other case `Match` returns the object and the state as they were: no
pipeline is run and the stored ratio is not changed. As a call counter sees it: on a
non-empty pair set of loaded images a matcher is built if and only if the combination is one
of the three. -/
theorem backend_selector_decision_table (lib : MatcherLib)
    (self : Matcher_Regions_AllInMemory) (pairs : Pair_Set) (st : MatchState)
    (I : Nat) (regions : Regions) (rest : StdMap Nat Regions)
    (hfirst : self.regions_perImage = (I, regions) :: rest)
    (hsize : 2 ≤ StdMap.size self.regions_perImage) :
    (regions.kind = DescriptorKind.dense →
      (regions.Type_id = ScalarType.unsigned_char ∨ regions.Type_id = ScalarType.float ∨
        regions.Type_id = ScalarType.double) →
      self._eMatcherType = EMatcherType.BRUTE_FORCE_L2 →
      Match lib self pairs st =
        callMatch
          (lib.ArrayMatcherBruteForce regions.Type_id (MetricT.L2_Vectorized regions.Type_id))
          (squareRatio self) pairs st) ∧
    (regions.kind = DescriptorKind.dense →
      (regions.Type_id = ScalarType.unsigned_char ∨ regions.Type_id = ScalarType.float ∨
        regions.Type_id = ScalarType.double) →
      self._eMatcherType = EMatcherType.ANN_L2 →
      Match lib self pairs st =
        callMatch
          (lib.ArrayMatcher_Kdtree_Flann regions.Type_id (MetricT.flann_L2 regions.Type_id))
          (squareRatio self) pairs st) ∧
    (regions.kind = DescriptorKind.binary →
      regions.Type_id = ScalarType.unsigned_char →
      self._eMatcherType = EMatcherType.BRUTE_FORCE_HAMMING →
      Match lib self pairs st =
        callMatch
          (lib.ArrayMatcherBruteForce ScalarType.unsigned_char
            (MetricT.Hamming ScalarType.unsigned_char))
          self pairs st) ∧
    (¬ ((regions.kind = DescriptorKind.dense ∧
          (regions.Type_id = ScalarType.unsigned_char ∨ regions.Type_id = ScalarType.float ∨
            regions.Type_id = ScalarType.double) ∧
          (self._eMatcherType = EMatcherType.BRUTE_FORCE_L2 ∨
            self._eMatcherType = EMatcherType.ANN_L2)) ∨
        (regions.kind = DescriptorKind.binary ∧
          regions.Type_id = ScalarType.unsigned_char ∧
          self._eMatcherType = EMatcherType.BRUTE_FORCE_HAMMING)) →
      Match lib self pairs st = some (self, st)) ∧
    (∀ T, MetricT.distance (MetricT.L2_Vectorized T) = squaredL2 ∧
      MetricT.distance (MetricT.flann_L2 T) = squaredL2 ∧
      MetricT.distance (MetricT.Hamming T) = hamming) ∧
    (MatcherLib.Parallel lib → pairs ≠ [] →
      pairsLoaded self.regions_perImage pairs = true →
      ∃ r, Match lib self pairs emptyState = some r ∧
        ((∃ A, Call.Build A ∈ r.2.calls) ↔
          ((regions.kind = DescriptorKind.dense ∧
              (regions.Type_id = ScalarType.unsigned_char ∨
                regions.Type_id = ScalarType.float ∨
                regions.Type_id = ScalarType.double) ∧
              (self._eMatcherType = EMatcherType.BRUTE_FORCE_L2 ∨
                self._eMatcherType = EMatcherType.ANN_L2)) ∨
            (regions.kind = DescriptorKind.binary ∧
              regions.Type_id = ScalarType.unsigned_char ∧
              self._eMatcherType = EMatcherType.BRUTE_FORCE_HAMMING)))) := by
  have hiff : compatible regions self._eMatcherType = true ↔
      ((regions.kind = DescriptorKind.dense ∧
          (regions.Type_id = ScalarType.unsigned_char ∨ regions.Type_id = ScalarType.float ∨
            regions.Type_id = ScalarType.double) ∧
          (self._eMatcherType = EMatcherType.BRUTE_FORCE_L2 ∨
            self._eMatcherType = EMatcherType.ANN_L2)) ∨
        (regions.kind = DescriptorKind.binary ∧
          regions.Type_id = ScalarType.unsigned_char ∧
          self._eMatcherType = EMatcherType.BRUTE_FORCE_HAMMING)) := by
    unfold compatible
    cases hkind : regions.kind <;> cases hb : self._eMatcherType <;>
      cases hty : regions.Type_id <;>
      simp [Regions.IsScalar, Regions.IsBinary, hkind, hb, hty]
  have hyes : ∀ st', compatible regions self._eMatcherType = true →
      Match lib self pairs st' =
        callMatch (selectedMatcher lib regions.Type_id self._eMatcherType)
          (dispatchedObject self) pairs st' :=
    fun st' hc => Match_of_compatible lib self pairs st' I regions rest hfirst hsize hc
  refine ⟨?_, ?_, ?_, ?_, fun T => ⟨rfl, rfl, rfl⟩, ?_⟩
  · intro hk hT hb
    rw [hyes st (hiff.2 (Or.inl ⟨hk, hT, Or.inl hb⟩))]
    simp [selectedMatcher, dispatchedObject, hb]
  · intro hk hT hb
    rw [hyes st (hiff.2 (Or.inl ⟨hk, hT, Or.inr hb⟩))]
    simp [selectedMatcher, dispatchedObject, hb]
  · intro hk hT hb
    rw [hyes st (hiff.2 (Or.inr ⟨hk, hT, hb⟩))]
    simp [selectedMatcher, dispatchedObject, hb]
  · intro hnot
    have hc : compatible regions self._eMatcherType = false := by
      cases h : compatible regions self._eMatcherType
      · rfl
      · exact absurd (hiff.1 h) hnot
    exact Match_of_not_compatible lib self pairs st I regions rest hfirst hc
  · intro hlib hne hloaded
    by_cases hc : compatible regions self._eMatcherType = true
    · have hM : ParallelOutputs (selectedMatcher lib regions.Type_id self._eMatcherType) := by
        cases hb : self._eMatcherType
        · exact (hlib _ _).1
        · exact (hlib _ _).2
        · exact (hlib _ _).1
      have hloaded' : pairsLoaded (dispatchedObject self).regions_perImage pairs = true := by
        unfold dispatchedObject
        cases self._eMatcherType <;> exact hloaded
      rw [hyes emptyState hc]
      unfold callMatch
      rw [Match_MatcherT_eq _ hM _ pairs emptyState hloaded']
      refine ⟨_, rfl, ?_⟩
      simp only [emptyState, List.nil_append]
      exact ⟨fun _ => hiff.1 hc, fun _ => Build_mem_groupCalls _ pairs hne⟩
    · have hc' : compatible regions self._eMatcherType = false := by
        cases h : compatible regions self._eMatcherType
        · rfl
        · exact absurd h hc
      rw [Match_of_not_compatible lib self pairs emptyState I regions rest hfirst hc']
      refine ⟨_, rfl, ?_⟩
      constructor
      · rintro ⟨A, hA⟩
        simp [emptyState] at hA
      · intro h
        exact absurd (hiff.2 h) hc

/-- Witness of C11: the dense `float` images `A` and `B` with the backend `BRUTE_FORCE_L2`
and with the backend `BRUTE_FORCE_HAMMING`. -/
theorem backend_selector_decision_table_witness :
    Match exactBackends (exampleMatcher (8 / 10) EMatcherType.BRUTE_FORCE_L2) [(0, 1)]
        emptyState =
      callMatch
        (exactBackends.ArrayMatcherBruteForce ScalarType.float
          (MetricT.L2_Vectorized ScalarType.float))
        (squareRatio (exampleMatcher (8 / 10) EMatcherType.BRUTE_FORCE_L2)) [(0, 1)]
        emptyState ∧
      Match exactBackends (exampleMatcher (8 / 10) EMatcherType.BRUTE_FORCE_HAMMING) [(0, 1)]
          emptyState =
        some (exampleMatcher (8 / 10) EMatcherType.BRUTE_FORCE_HAMMING, emptyState) :=
  ⟨(backend_selector_decision_table exactBackends
      (exampleMatcher (8 / 10) EMatcherType.BRUTE_FORCE_L2) [(0, 1)] emptyState 0 exampleA
      [(1, exampleB)] rfl (by decide)).1 rfl (Or.inr (Or.inl rfl)) rfl,
    (backend_selector_decision_table exactBackends
      (exampleMatcher (8 / 10) EMatcherType.BRUTE_FORCE_HAMMING) [(0, 1)] emptyState 0 exampleA
      [(1, exampleB)] rfl (by decide)).2.2.2.1 (by decide)⟩

end openMVG

/-! ## The table only grows -/

namespace openMVG

open StdMap Matcher_Regions_AllInMemory

theorem insert_of_find {κ ν : Type} [LinearOrder κ] (k : κ) (v l : ν) :
    ∀ m : StdMap κ ν, Ordered m → find m k = some l → StdMap.insert k v m = m := by
  intro m
  induction m with
  | nil => intro _ h; simp [find] at h
  | cons e rest ih =>
    intro hord h
    obtain ⟨k0, v0⟩ := e
    rw [ordered_cons] at hord
    by_cases h1 : k < k0
    · exfalso
      have hnone : find ((k0, v0) :: rest) k = none := by
        rw [find_eq_none_iff]
        intro hmem
        simp only [keys, List.map_cons, List.mem_cons] at hmem
        rcases hmem with rfl | hmem
        · exact lt_irrefl _ h1
        · exact lt_asymm h1 (hord.1 _ hmem)
      rw [hnone] at h
      exact Option.noConfusion h
    · by_cases h2 : k = k0
      · subst h2
        simp [StdMap.insert, alter]
      · have h3 : ¬ k0 = k := fun e => h2 e.symm
        have hrest : find rest k = some l := by simpa [find, h3] using h
        have := ih hord.2 hrest
        unfold StdMap.insert at this ⊢
        simp [alter, h1, h2, this]

theorem insert_keeps_entries {κ ν : Type} [LinearOrder κ] (k : κ) (v : ν) {m : StdMap κ ν}
    (hord : Ordered m) (key : κ) (l : ν) (h : find m key = some l) :
    find (StdMap.insert k v m) key = some l := by
  rw [find_insert k v hord key]
  by_cases hk : key = k
  · subst hk
    simp [h]
  · simp [hk, h]

theorem matchForeign_keeps_entries (M : MatcherT) (regions_perImage : StdMap Nat Regions)
    (τ : Scalar) (I : Nat) (matcher10 : M.Index) (pointFeaturesI : List PointFeature) :
    ∀ (js : List Nat) (st st' : MatchState), Ordered st.map_PutativesMatches →
      matchForeign M regions_perImage τ I matcher10 pointFeaturesI js st = some st' →
      Ordered st'.map_PutativesMatches ∧
        ∀ key l, find st.map_PutativesMatches key = some l →
          find st'.map_PutativesMatches key = some l := by
  intro js
  induction js with
  | nil =>
    intro st st' hord h
    simp only [matchForeign, Option.some.injEq] at h
    subst h
    exact ⟨hord, fun _ _ hl => hl⟩
  | cons J rest ih =>
    intro st st' hord h
    unfold matchForeign at h
    cases hJ : find regions_perImage J with
    | none => simp [hJ] at h
    | some regionsJ =>
      cases hp : putativeMatches M τ matcher10 pointFeaturesI regionsJ with
      | none => simp [hJ, hp] at h
      | some found =>
        simp only [hJ, hp] at h
        obtain ⟨ho, hk⟩ := ih _ st' (ordered_insert _ _ hord) h
        exact ⟨ho, fun key l hl => hk key l (insert_keeps_entries _ _ hord key l hl)⟩

theorem matchAnchors_keeps_entries (M : MatcherT) (regions_perImage : StdMap Nat Regions)
    (τ : Scalar) :
    ∀ (groups : StdMap Nat (List Nat)) (st st' : MatchState),
      Ordered st.map_PutativesMatches →
      matchAnchors M regions_perImage τ groups st = some st' →
      Ordered st'.map_PutativesMatches ∧
        ∀ key l, find st.map_PutativesMatches key = some l →
          find st'.map_PutativesMatches key = some l := by
  intro groups
  induction groups with
  | nil =>
    intro st st' hord h
    simp only [matchAnchors, Option.some.injEq] at h
    subst h
    exact ⟨hord, fun _ _ hl => hl⟩
  | cons g rest ih =>
    intro st st' hord h
    obtain ⟨I, js⟩ := g
    unfold matchAnchors at h
    cases hI : find regions_perImage I with
    | none => simp [hI] at h
    | some regionsI =>
      simp only [hI] at h
      cases hf : matchForeign M regions_perImage τ I
          (M.Build regionsI.DescriptorRawData regionsI.RegionCount regionsI.DescriptorLength)
          regionsI.GetRegionsPositions js { st with calls := st.calls ++ [Call.Build I] } with
      | none => simp [hf] at h
      | some st1 =>
        simp only [hf] at h
        obtain ⟨ho1, hk1⟩ := matchForeign_keeps_entries M regions_perImage τ I _ _ js
          { st with calls := st.calls ++ [Call.Build I] } st1 hord hf
        obtain ⟨ho, hk⟩ := ih st1 st' ho1 h
        exact ⟨ho, fun key l hl => hk key l (hk1 key l hl)⟩

theorem callMatch_keeps_entries (M : MatcherT) (self : Matcher_Regions_AllInMemory)
    (pairs : Pair_Set) (st : MatchState) (r : Matcher_Regions_AllInMemory × MatchState)
    (hord : Ordered st.map_PutativesMatches) (h : callMatch M self pairs st = some r) :
    ∀ key l, find st.map_PutativesMatches key = some l →
      find r.2.map_PutativesMatches key = some l := by
  unfold callMatch Match_MatcherT at h
  cases hm : matchAnchors M self.regions_perImage self.fDistRatio (map_Pairs pairs) st with
  | none => simp [hm] at h
  | some st' =>
    simp only [hm, Option.map_some', Option.some.injEq] at h
    subst h
    exact (matchAnchors_keeps_entries M _ _ _ st st' hord hm).2

theorem Match_returns (lib : MatcherLib) (hlib : MatcherLib.Parallel lib)
    (self : Matcher_Regions_AllInMemory) (pairs : Pair_Set) (st : MatchState)
    (hloaded : pairsLoaded self.regions_perImage pairs = true) :
    ∃ r, Match lib self pairs st = some r := by
  by_cases hsize : StdMap.size self.regions_perImage < 2
  · exact ⟨_, by unfold Match; rw [if_pos hsize]⟩
  · cases hreg : self.regions_perImage with
    | nil => simp [hreg, StdMap.size] at hsize
    | cons e rest =>
      obtain ⟨I, regions⟩ := e
      cases hc : compatible regions self._eMatcherType
      · exact ⟨_, Match_of_not_compatible lib self pairs st I regions rest hreg hc⟩
      · have hM : ParallelOutputs (selectedMatcher lib regions.Type_id self._eMatcherType) := by
          cases hb : self._eMatcherType
          · exact (hlib _ _).1
          · exact (hlib _ _).2
          · exact (hlib _ _).1
        have hloaded' : pairsLoaded (dispatchedObject self).regions_perImage pairs = true := by
          unfold dispatchedObject
          cases self._eMatcherType <;> exact hloaded
        rw [Match_of_compatible lib self pairs st I regions rest hreg (by omega) hc]
        unfold callMatch
        rw [Match_MatcherT_eq _ hM _ pairs st hloaded']
        exact ⟨_, rfl⟩

end openMVG

namespace openMVG

open StdMap Matcher_Regions_AllInMemory

theorem Match_keeps_entries (lib : MatcherLib) (self : Matcher_Regions_AllInMemory)
    (pairs : Pair_Set) (st : MatchState) (r : Matcher_Regions_AllInMemory × MatchState)
    (hord : Ordered st.map_PutativesMatches) (h : Match lib self pairs st = some r) :
    ∀ key l, find st.map_PutativesMatches key = some l →
      find r.2.map_PutativesMatches key = some l := by
  by_cases hsize : StdMap.size self.regions_perImage < 2
  · have h' : Match lib self pairs st = some (self, st) := by unfold Match; rw [if_pos hsize]
    rw [h'] at h
    cases h
    exact fun _ _ hl => hl
  · cases hreg : self.regions_perImage with
    | nil => simp [hreg, StdMap.size] at hsize
    | cons e rest =>
      obtain ⟨I, regions⟩ := e
      cases hc : compatible regions self._eMatcherType
      · rw [Match_of_not_compatible lib self pairs st I regions rest hreg hc] at h
        cases h
        exact fun _ _ hl => hl
      · rw [Match_of_compatible lib self pairs st I regions rest hreg (by omega) hc] at h
        have hord' : Ordered st.map_PutativesMatches := hord
        exact callMatch_keeps_entries _ (dispatchedObject self) pairs st r hord' h

/-- C12: the table only grows. For every table handed to `Match`, empty or not, and every
state `Match` returns, every key present before the call is present after it with exactly
the same correspondence list; the same holds for `Match<MatcherT>` and for every state
reached by the loop over the anchors, so also for the table left when a later pair throws.
`Match` only adds entries: publishing a list under a key `(I, J)` that is already in the
table leaves the table as it is, with the existing list in place. With parallel matcher
outputs and all paired images loaded `Match` does return. -/
theorem table_only_grows (lib : MatcherLib) (self : Matcher_Regions_AllInMemory)
    (pairs : Pair_Set) (st : MatchState) (hord : Ordered st.map_PutativesMatches) :
    (∀ r, Match lib self pairs st = some r →
      ∀ key l, find st.map_PutativesMatches key = some l →
        find r.2.map_PutativesMatches key = some l) ∧
    (∀ (M : MatcherT) (st' : MatchState), Match_MatcherT M self pairs st = some st' →
      ∀ key l, find st.map_PutativesMatches key = some l →
        find st'.map_PutativesMatches key = some l) ∧
    (∀ (M : MatcherT) (τ : Scalar) (groups : StdMap Nat (List Nat)) (st' : MatchState),
      matchAnchors M self.regions_perImage τ groups st = some st' →
      ∀ key l, find st.map_PutativesMatches key = some l →
        find st'.map_PutativesMatches key = some l) ∧
    (∀ (I J : Nat) (l v : List IndMatch),
      find st.map_PutativesMatches (toLex (I, J)) = some l →
      StdMap.insert (toLex (I, J)) v st.map_PutativesMatches = st.map_PutativesMatches) ∧
    (MatcherLib.Parallel lib → pairsLoaded self.regions_perImage pairs = true →
      ∃ r, Match lib self pairs st = some r) := by
  refine ⟨fun r h => Match_keeps_entries lib self pairs st r hord h, ?_, ?_, ?_, ?_⟩
  · intro M st' h
    exact (matchAnchors_keeps_entries M _ _ _ st st' hord h).2
  · intro M τ groups st' h
    exact (matchAnchors_keeps_entries M _ τ groups st st' hord h).2
  · intro I J l v h
    exact insert_of_find _ v l _ hord h
  · intro hlib hloaded
    exact Match_returns lib hlib self pairs st hloaded

/-- Witness of C12: the table already has the key `(0, 1)` with the list `[(7, 7)]`; after
`Match` on the pair set `{(0, 1), (1, 0)}` the key `(0, 1)` still has that list, and the
key `(1, 0)` has been added. -/
theorem table_only_grows_witness :
    Ordered occupiedState.map_PutativesMatches ∧
      ∃ r, Match exactBackends (exampleMatcher (8 / 10) EMatcherType.BRUTE_FORCE_L2)
          [(0, 1), (1, 0)] occupiedState = some r ∧
        r.2.map_PutativesMatches = [(toLex (0, 1), [IndMatch.mk 7 7]), (toLex (1, 0), [])] ∧
        find r.2.map_PutativesMatches (toLex (0, 1)) = some [IndMatch.mk 7 7] := by
  have hord : Ordered occupiedState.map_PutativesMatches := by
    simp [Ordered, keys, occupiedState]
  have hr : Match exactBackends (exampleMatcher (8 / 10) EMatcherType.BRUTE_FORCE_L2)
      [(0, 1), (1, 0)] occupiedState =
      some ({ exampleMatcher (8 / 10) EMatcherType.BRUTE_FORCE_L2 with fDistRatio := 16 / 25 },
        { map_PutativesMatches := [(toLex (0, 1), [IndMatch.mk 7 7]), (toLex (1, 0), [])],
          calls := [Call.Build 0, Call.SearchNeighbours 0 1,
            Call.NNdistanceRatio 0 1 (16 / 25), Call.Build 1, Call.SearchNeighbours 1 0,
            Call.NNdistanceRatio 1 0 (16 / 25)] }) := by
    with_unfolding_all rfl
  exact ⟨hord, _, hr, rfl,
    (table_only_grows exactBackends (exampleMatcher (8 / 10) EMatcherType.BRUTE_FORCE_L2)
      [(0, 1), (1, 0)] occupiedState hord).1 _ hr (toLex (0, 1)) [IndMatch.mk 7 7] rfl⟩

end openMVG
